import Mathlib

/-!
Verification development for the PDFtoWord semantic-reconstruction core.

The Python analyzers (font, layout, semantic) and the table column-collapsing
algorithm are shallowly embedded: dictionaries become structures with all the
fields (and defaults) the code reads, floats become exact rationals, Python's
stable `list.sort` becomes `List.insertionSort` (which is stable), and the
`while` loops are given fuel / well-founded measures mirroring the source.
-/

set_option maxRecDepth 10000

namespace PDFtoWord

/-! ### Generic helpers (Python string and list primitives) -/

/-- Python whitespace test, used by `str.strip`, `str.lstrip` and the regex
class denoted by a backslash-s (restricted to the ASCII whitespace the inputs
contain). -/
def isWS (c : Char) : Bool := c.isWhitespace

/-- `str.lstrip()` on a character list. -/
def lstripL (cs : List Char) : List Char := cs.dropWhile isWS

/-- `str.strip()` on a character list. -/
def pyStripL (cs : List Char) : List Char :=
  ((cs.dropWhile isWS).reverse.dropWhile isWS).reverse

/-- `str.strip()` on a string. -/
def pyStrip (s : String) : String := ⟨pyStripL s.data⟩

/-- Remove duplicates keeping the FIRST occurrence of each value, the order in
which a Python dict (or `Counter`) records its keys. -/
def dedupFirst {α : Type} [DecidableEq α] : List α → List α
  | [] => []
  | x :: xs => x :: (dedupFirst xs).filter (fun y => y ≠ x)

/-- `max(..)` over a rational list with default `0` for the empty list (the
source only applies it to non-empty lists). -/
def qListMax : List ℚ → ℚ
  | [] => 0
  | x :: xs => xs.foldl max x

/-- `min(..)` over a rational list with default `0`. -/
def qListMin : List ℚ → ℚ
  | [] => 0
  | x :: xs => xs.foldl min x

/-- `max(..)` over a natural-number list with default `0`. -/
def natListMax (l : List Nat) : Nat := l.foldr max 0

/-- Python's `max(iterable, key=w)` and the tie behaviour of
`Counter.most_common(1)`: scan the candidates in order and keep the FIRST one
whose weight is maximal (later candidates replace the current best only when
strictly heavier). -/
def firstMax {α : Type} (w : α → Nat) : List α → α → α
  | [], best => best
  | k :: ks, best => if w best < w k then firstMax w ks k else firstMax w ks best

/-- `hay.find(needle)` (Python `str.find`), as an optional first index,
starting the numbering at `i`. -/
def strFindAux (needle : List Char) : List Char → Nat → Option Nat
  | hay, i =>
    if needle.isPrefixOf hay then some i
    else match hay with
      | [] => none
      | _ :: t => strFindAux needle t (i + 1)

/-- `hay.find(needle)`: index of the first occurrence of `needle` in `hay`. -/
def strFind (hay needle : List Char) : Option Nat := strFindAux needle hay 0

/-- The substring `needle` occurs in `hay` at index `i`. -/
def occursAt (hay needle : List Char) (i : Nat) : Prop := needle <+: hay.drop i

/-! ### Lexicographic order on rational pairs, shared by every `(y0, x0)` and
`(level, -size)` sort in the source. -/

/-- Ascending lexicographic comparison of rational pairs, i.e. Python's tuple
comparison used by `sort(key=lambda b: (b.y0, b.x0))`. -/
def qpairLE (p q : ℚ × ℚ) : Prop := p.1 < q.1 ∨ (p.1 = q.1 ∧ p.2 ≤ q.2)

instance : DecidableRel qpairLE := fun p q => by unfold qpairLE; infer_instance

theorem qpairLE_total (p q : ℚ × ℚ) : qpairLE p q ∨ qpairLE q p := by
  rcases lt_trichotomy p.1 q.1 with h | h | h
  · exact Or.inl (Or.inl h)
  · rcases le_total p.2 q.2 with h2 | h2
    · exact Or.inl (Or.inr ⟨h, h2⟩)
    · exact Or.inr (Or.inr ⟨h.symm, h2⟩)
  · exact Or.inr (Or.inl h)

theorem qpairLE_trans {p q r : ℚ × ℚ} (h1 : qpairLE p q) (h2 : qpairLE q r) :
    qpairLE p r := by
  rcases h1 with h1 | ⟨h1, h1'⟩ <;> rcases h2 with h2 | ⟨h2, h2'⟩
  · exact Or.inl (h1.trans h2)
  · exact Or.inl (h2 ▸ h1)
  · exact Or.inl (h1 ▸ h2)
  · exact Or.inr ⟨h1.trans h2, h1'.trans h2'⟩

/-! ### Input data model (section 3 of the spec) -/

/-- A positioned text span (`TextSpan` in the spec; a text-block dict in the
source, with the defaults the code supplies through `dict.get`). -/
structure Block where
  text : String := ""
  x0 : ℚ := 0
  y0 : ℚ := 0
  x1 : ℚ := 0
  y1 : ℚ := 0
  font : String := ""
  size : ℚ := 0
  bold : Bool := false
  italic : Bool := false
  underline : Bool := false
  strikethrough : Bool := false
  superscript : Bool := false
  color : Int × Int × Int := (0, 0, 0)
  highlight_color : Option (Int × Int × Int) := none
  page_num : Nat := 0
deriving DecidableEq

/-- Sort key used everywhere for spans: ascending `(y0, x0)`. -/
def blockLE (a b : Block) : Prop := qpairLE (a.y0, a.x0) (b.y0, b.x0)

instance : DecidableRel blockLE := fun a b => by unfold blockLE; infer_instance

instance : IsTotal Block blockLE := ⟨fun _ _ => qpairLE_total _ _⟩

instance : IsTrans Block blockLE := ⟨fun _ _ _ => qpairLE_trans⟩

/-! ### Font analyzer (`src/analyzers/font_analyzer.py`) -/

/-- ASCII upper-case letter, the regex class `[A-Z]`. -/
def isUpperAZ (c : Char) : Bool := 'A' ≤ c && c ≤ 'Z'

/-- `FontAnalyzer._strip_subset_prefix`: remove a six-letter upper-case subset
tag followed by a plus sign from the start of a font name. -/
def stripSubsetTag (s : String) : String :=
  match s.data with
  | a :: b :: c :: d :: e :: f :: g :: rest =>
    if isUpperAZ a && isUpperAZ b && isUpperAZ c && isUpperAZ d &&
        isUpperAZ e && isUpperAZ f && g = '+' then ⟨rest⟩ else s
  | _ => s

/-- The `(font, size)` counter key of a block. -/
def blockKey (b : Block) : String × ℚ := (stripSubsetTag b.font, b.size)

/-- Total weight a `(font, size)` combination receives: each block contributes
`max(len(text), 1)`. -/
def keyWeight (blocks : List Block) (k : String × ℚ) : Nat :=
  ((blocks.filter (fun b => blockKey b = k)).map (fun b => max b.text.length 1)).sum

/-- The `(font, size)` keys in `Counter` insertion order (first occurrence). -/
def fontKeyList (blocks : List Block) : List (String × ℚ) :=
  dedupFirst (blocks.map blockKey)

/-- `most_common(1)` of the length-weighted counter: the first-inserted key of
maximal weight.  Defaults to Arial at 12pt for empty input. -/
def bodyFontOf (blocks : List Block) : String × ℚ :=
  match fontKeyList blocks with
  | [] => ("Arial", 12)
  | k :: ks => firstMax (keyWeight blocks) ks k

/-- A detected heading font combination. -/
structure HeadingFont where
  name : String
  size : ℚ
  level : Nat
deriving DecidableEq

/-- `bold_lookup`: a `(font, size)` combination counts as bold when any block
carrying it is bold. -/
def anyBold (blocks : List Block) (k : String × ℚ) : Bool :=
  blocks.any (fun b => blockKey b = k && b.bold)

/-- Heading level from the size multiple over the body size (the thresholds
HEADING1 1.4, HEADING2 1.2, HEADING3 1.05 of the source), `none` when the
combination is not a heading. -/
def headingLevelOf (r : ℚ) (bold : Bool) : Option Nat :=
  if r ≥ 1.4 then some 1
  else if r ≥ 1.2 then some 2
  else if r ≥ 1.05 ∧ bold then some 3
  else none

/-- Sort order of the final heading list: ascending `(level, -size)`. -/
def headingLE (a b : HeadingFont) : Prop := qpairLE (a.level, -a.size) (b.level, -b.size)

instance : DecidableRel headingLE := fun a b => by unfold headingLE; infer_instance

instance : IsTotal HeadingFont headingLE := ⟨fun _ _ => qpairLE_total _ _⟩

instance : IsTrans HeadingFont headingLE := ⟨fun _ _ _ => qpairLE_trans⟩

/-- `FontAnalyzer._detect_heading_fonts`. -/
def detectHeadingFonts (blocks : List Block) (bodySize : ℚ) : List HeadingFont :=
  if bodySize ≤ 0 then []
  else
    ((fontKeyList blocks).filterMap (fun k =>
      if k.2 ≤ bodySize then none
      else (headingLevelOf (k.2 / bodySize) (anyBold blocks k)).map
        (fun lvl => HeadingFont.mk k.1 k.2 lvl))).insertionSort headingLE

/-- Known serif, monospace and sans-serif family fragments. -/
def serifFonts : List String := ["times", "georgia", "garamond", "cambria", "palatino"]

def monoFonts : List String := ["courier", "consolas", "monaco"]

def sansFonts : List String := ["helvetica", "arial", "calibri", "verdana", "tahoma"]

/-- Case-insensitive, hyphen/space-free normalization of a font name. -/
def normFontName (s : String) : List Char :=
  (s.data.map Char.toLower).filter (fun c => c ≠ '-' ∧ c ≠ ' ')

/-- Substring containment on the normalized name. -/
def containsFrag (name : List Char) (frag : String) : Bool :=
  decide (List.IsInfix frag.data name)

/-- `FontAnalyzer._map_to_fallback`. -/
def mapToFallback (fontName : String) : String :=
  let lower := normFontName fontName
  if containsFrag lower "serif" && !containsFrag lower "sans" then "Times New Roman"
  else if serifFonts.any (containsFrag lower) then "Times New Roman"
  else if containsFrag lower "mono" then "Courier New"
  else if monoFonts.any (containsFrag lower) then "Courier New"
  else if containsFrag lower "sans" then "Arial"
  else if sansFonts.any (containsFrag lower) then "Arial"
  else "Arial"

/-- The result of `FontAnalyzer.analyze`. -/
structure FontProfile where
  bodyName : String
  bodySize : ℚ
  headingFonts : List HeadingFont
  fontMap : List (String × String)
deriving DecidableEq

/-- `FontAnalyzer.analyze`. -/
def fontAnalyze (blocks : List Block) : FontProfile :=
  if blocks = [] then ⟨"Arial", 12, [], []⟩
  else
    let body := bodyFontOf blocks
    { bodyName := body.1
      bodySize := body.2
      headingFonts := detectHeadingFonts blocks body.2
      fontMap := (dedupFirst (blocks.map (fun b => stripSubsetTag b.font))).map
        (fun n => (n, mapToFallback n)) }

/-! ### Layout analyzer (`src/analyzers/layout_analyzer.py`) -/

/-- The per-page layout result of `LayoutAnalyzer.analyze`.  The
`text_blocks_by_column` dict with keys `0..num_columns-1` is a list indexed by
column. -/
structure LayoutResult where
  numColumns : Nat
  columns : List (ℚ × ℚ)
  blocksByColumn : List (List Block)
  sectionBreaks : List (ℚ × ℚ × ℚ)
deriving DecidableEq

/-- `LayoutAnalyzer._single_column_result`. -/
def singleColumnResult (blocks : List Block) : LayoutResult :=
  ⟨1, [(0, 0)], [blocks], []⟩

/-- One step of the greedy x0 clustering: append to the last cluster, or start
a new one when the gap to the last collected value exceeds the threshold. -/
def addToClusters (gap : ℚ) (clusters : List (List ℚ)) (x : ℚ) : List (List ℚ) :=
  match clusters.getLast? with
  | none => [[x]]
  | some c =>
    if x - (c.getLast?.getD 0) > gap then clusters ++ [[x]]
    else clusters.dropLast ++ [c ++ [x]]

/-- Greedy clustering of the sorted unique left edges (`analyze`, step 2). -/
def buildClusters (gap : ℚ) : List ℚ → List (List ℚ)
  | [] => []
  | x :: rest => rest.foldl (addToClusters gap) [[x]]

/-- Inter-cluster gap between cluster `i` and cluster `i+1`:
`clusters[i+1][0] - clusters[i][-1]`. -/
def gapAt (clusters : List (List ℚ)) (i : Nat) : ℚ :=
  ((clusters.getD (i + 1) []).headD 0) - ((clusters.getD i []).getLast?.getD 0)

/-- Index of the adjacent pair with the smallest gap; Python's strict `<`
update keeps the FIRST minimising index. -/
def minGapIdx (clusters : List (List ℚ)) : Nat :=
  (List.range (clusters.length - 1)).foldl
    (fun best i => if gapAt clusters i < gapAt clusters best then i else best) 0

/-- Merge cluster `i+1` into cluster `i`. -/
def mergeClusterAt (clusters : List (List ℚ)) (i : Nat) : List (List ℚ) :=
  clusters.take i ++ [(clusters.getD i []) ++ (clusters.getD (i + 1) [])] ++
    clusters.drop (i + 2)

theorem foldl_minGap_lt (m : Nat) :
    ∀ (l : List Nat) (g : Nat → Nat → Nat) (init : Nat), (∀ x ∈ l, x < m) → init < m →
      (∀ b i, g b i = b ∨ g b i = i) → l.foldl g init < m := by
  intro l
  induction l with
  | nil => intro g init _ h2 _; simpa using h2
  | cons x xs ih =>
    intro g init h1 h2 h3
    simp only [List.foldl_cons]
    apply ih g (g init x)
    · intro y hy; exact h1 y (List.mem_cons_of_mem _ hy)
    · rcases h3 init x with h | h
      · rw [h]; exact h2
      · rw [h]; exact h1 x (List.mem_cons_self _ _)
    · exact h3

theorem minGapIdx_lt {clusters : List (List ℚ)} (h : 2 ≤ clusters.length) :
    minGapIdx clusters < clusters.length - 1 := by
  unfold minGapIdx
  apply foldl_minGap_lt
  · intro x hx; exact List.mem_range.mp hx
  · omega
  · intro b i; dsimp only; split <;> simp

theorem length_mergeClusterAt {clusters : List (List ℚ)} {i : Nat}
    (h : i + 1 < clusters.length) :
    (mergeClusterAt clusters i).length = clusters.length - 1 := by
  unfold mergeClusterAt
  simp only [List.length_append, List.length_take, List.length_drop,
    List.length_cons, List.length_nil]
  omega

/-- `LayoutAnalyzer._merge_clusters_to_max` with `max_columns = 3` (its only
call site): merge the closest adjacent pair while more than three clusters
remain. -/
def mergeClustersToMax3 (clusters : List (List ℚ)) : List (List ℚ) :=
  if h : clusters.length ≤ 3 then clusters
  else
    have h2 : 2 ≤ clusters.length := by omega
    have : (mergeClusterAt clusters (minGapIdx clusters)).length < clusters.length := by
      rw [length_mergeClusterAt (by have := minGapIdx_lt h2; omega)]
      omega
    mergeClustersToMax3 (mergeClusterAt clusters (minGapIdx clusters))
termination_by clusters.length

/-- `LayoutAnalyzer._compute_column_boundaries`. -/
def computeColumnBoundaries (clusters : List (List ℚ)) (blocks : List Block)
    (pageWidth : ℚ) : List (ℚ × ℚ) :=
  clusters.map (fun cluster =>
    let xStart := qListMin cluster
    let xEndCandidates := (blocks.filter
      (fun b => xStart ≤ b.x0 ∧ b.x0 ≤ qListMax cluster)).map (fun b => b.x1)
    let xEnd := match xEndCandidates with
      | [] => min pageWidth (xStart + 100)
      | c :: cs => cs.foldl max c
    (xStart, xEnd))

/-- `LayoutAnalyzer._assign_column`: the loop state is `(index, best, best
distance)`, `none` standing for the initial infinite distance. -/
def assignColumnGo (x0 : ℚ) : List (ℚ × ℚ) → Nat → Nat → Option ℚ → Nat
  | [], _, best, _ => best
  | (cs, ce) :: rest, i, best, bd =>
    if cs ≤ x0 ∧ x0 ≤ ce then i
    else
      let d := min |x0 - cs| |x0 - ce|
      match bd with
      | none => assignColumnGo x0 rest (i + 1) i (some d)
      | some bdv =>
        if d < bdv then assignColumnGo x0 rest (i + 1) i (some d)
        else assignColumnGo x0 rest (i + 1) best (some bdv)

def assignColumn (b : Block) (columns : List (ℚ × ℚ)) : Nat :=
  assignColumnGo b.x0 columns 0 0 none

/-- `LayoutAnalyzer._detect_section_breaks`. -/
def detectSectionBreaks (blocks : List Block) (pageHeight : ℚ) : List (ℚ × ℚ × ℚ) :=
  if blocks.length < 2 then []
  else
    let gapThreshold := 0.30 * pageHeight
    let sorted := blocks.insertionSort blockLE
    (sorted.zip sorted.tail).filterMap (fun pq =>
      let gap := pq.2.y0 - pq.1.y1
      if gap > gapThreshold then some (pq.1.y1, pq.2.y0, gap) else none)

/-- `LayoutAnalyzer.analyze`. -/
def layoutAnalyze (blocks : List Block) (pageWidth pageHeight : ℚ) : LayoutResult :=
  if blocks = [] ∨ pageWidth ≤ 0 ∨ pageHeight ≤ 0 then singleColumnResult blocks
  else
    let x0Values := (dedupFirst (blocks.map (fun b => b.x0))).insertionSort (· ≤ ·)
    if x0Values = [] then singleColumnResult blocks
    else
      let clusters0 := buildClusters (0.20 * pageWidth) x0Values
      let clusters := if 3 < clusters0.length then mergeClustersToMax3 clusters0 else clusters0
      let numColumns := clusters.length
      let columns := computeColumnBoundaries clusters blocks pageWidth
      let byColumn := (List.range numColumns).map
        (fun i => blocks.filter (fun b => assignColumn b columns = i))
      { numColumns := numColumns
        columns := columns
        blocksByColumn := byColumn
        sectionBreaks := detectSectionBreaks blocks pageHeight }

/-! ### Table column collapsing (`src/extractors/table_extractor.py`,
`TableExtractor._collapse_empty_columns`) -/

/-- `row[i].strip()` guarded by the index check of the source (missing cells
read as the empty string). -/
def cellAt (r : List String) (i : Nat) : String := pyStrip (r.getD i "")

/-- Columns `ci` and `ci+1` are simultaneously non-empty in some row. -/
def colsOverlap (rows : List (List String)) (ci : Nat) : Bool :=
  rows.any (fun r => cellAt r ci ≠ "" ∧ cellAt r (ci + 1) ≠ "")

/-- Scan for the first non-overlapping adjacent pair starting at column `ci`,
with `fuel` remaining candidate indices (Python's `for ci in range(n - 1)`
with a `break` at the first hit). -/
def findComplAux (rows : List (List String)) : Nat → Nat → Option Nat
  | _, 0 => none
  | ci, fuel + 1 =>
    if ¬ colsOverlap rows ci then some ci
    else findComplAux rows (ci + 1) fuel

/-- The inner scan of the merge loop: the first adjacent complementary pair
(never simultaneously non-empty), scanning `ci` over the first row's width. -/
def findComplementary (rows : List (List String)) : Option Nat :=
  let n := (rows.headD []).length
  if n ≤ 1 then none
  else findComplAux rows 0 (n - 1)

/-- Merge column `ci+1` into column `ci`, joining the stripped texts with a
space (the source writes `row[ci] = (a + " " + b).strip()` and then deletes
`row[ci+1]`; rows are uniform at every call site so the index is in range). -/
def mergeColsAt (rows : List (List String)) (ci : Nat) : List (List String) :=
  rows.map (fun r =>
    let a := cellAt r ci
    let b := cellAt r (ci + 1)
    ((r.set ci (pyStrip (a ++ " " ++ b))).eraseIdx (ci + 1)))

/-- The `while merged:` loop, with fuel; the source loop stops when no
adjacent complementary pair remains. -/
def collapseIter : Nat → List (List String) → List (List String)
  | 0, rows => rows
  | fuel + 1, rows =>
    match findComplementary rows with
    | none => rows
    | some ci => collapseIter fuel (mergeColsAt rows ci)

/-- `TableExtractor._collapse_empty_columns`: drop all-blank columns, then
merge adjacent complementary columns until none remain.  The fuel equal to the
filtered column count is sufficient (proved below): each merge removes one
column and the loop needs at least two columns to merge. -/
def collapseEmptyColumns (rows : List (List String)) : List (List String) :=
  if rows = [] then rows
  else
    let numCols := natListMax (rows.map (fun r => r.length))
    if numCols ≤ 1 then rows
    else
      let kept := (List.range numCols).filter
        (fun i => rows.any (fun r => i < r.length ∧ pyStrip (r.getD i "") ≠ ""))
      if kept = [] then rows
      else
        let filtered := rows.map (fun r => kept.map (fun i => r.getD i ""))
        collapseIter (filtered.headD []).length filtered

/-! ### Semantic analyzer data model (`src/analyzers/semantic_analyzer.py`) -/

/-- Page metadata (`metadata["pages"][i]`), with the source's read defaults. -/
structure PageMeta where
  width : ℚ := 612
  height : ℚ := 792
  is_landscape : Bool := false
  margins : Option (ℚ × ℚ × ℚ × ℚ) := none
deriving DecidableEq

/-- An extracted image dict. -/
structure Image where
  path : String := ""
  width : ℚ := 0
  height : ℚ := 0
  page_num : Nat := 0
  x0 : ℚ := 0
  y0 : ℚ := 0
  x1 : ℚ := 0
  y1 : ℚ := 0
deriving DecidableEq

/-- An extracted raw table dict (the cell-style passthrough, an opaque
styling payload never read by the analyzer, is not modelled). -/
structure TableIn where
  rows : List (List String) := []
  num_rows : Option Nat := none
  num_cols : Option Nat := none
  page_num : Nat := 0
  x0 : ℚ := 0
  y0 : ℚ := 0
  col_widths : Option (List ℚ) := none
  header_row : Option Bool := none
  row_heights : Option (List ℚ) := none
  table_height : Option ℚ := none
deriving DecidableEq

/-- An extracted hyperlink. -/
structure Link where
  uri : String := ""
  bbox : ℚ × ℚ × ℚ × ℚ := (0, 0, 0, 0)
  page_num : Nat := 0
deriving DecidableEq

/-- A styled text fragment of a paragraph (a "run" dict).  The separator runs
the source appends as bare newline dicts have every other key missing, which
the link-attachment pass reads back as these defaults. -/
structure Run where
  text : String := ""
  font : String := ""
  size : ℚ := 0
  bold : Bool := false
  italic : Bool := false
  color : Int × Int × Int := (0, 0, 0)
  underline : Bool := false
  strikethrough : Bool := false
  superscript : Bool := false
  highlight_color : Option (Int × Int × Int) := none
  x0 : ℚ := 0
  y0 : ℚ := 0
  x1 : ℚ := 0
  y1 : ℚ := 0
deriving DecidableEq

/-- A link range attached to a paragraph/heading (`stop` models the source's
`end` key, `start + len(text)`). -/
structure LinkRange where
  text : String := ""
  uri : String := ""
  start : Nat := 0
  stop : Nat := 0
deriving DecidableEq

/-- Formatting metadata of a finalized element. -/
structure Fmt where
  font : String := "Arial"
  size : ℚ := 12
  bold : Bool := false
  italic : Bool := false
  color : Int × Int × Int := (0, 0, 0)
  alignment : String := "left"
  spacing_before : ℚ := 0
  indent_left : ℚ := 0
  line_spacing : Option ℚ := none
  first_line_indent : Option ℚ := none
deriving DecidableEq

/-- A semantic element.  `kind` is the `"type"` key of the source dicts; the
`y0`/`x0` fields are the internal `_y0`/`_x0` sort keys (the source pops them
after the per-page sort; here they simply stop being meaningful). -/
structure Element where
  kind : String
  text : String := ""
  page_num : Nat := 0
  level : Nat := 0
  bullet_type : String := ""
  runs : List Run := []
  formatting : Fmt := {}
  links : List LinkRange := []
  path : String := ""
  width : ℚ := 0
  height : ℚ := 0
  rows : List (List String) := []
  num_rows : Nat := 0
  num_cols : Nat := 0
  col_widths : Option (List ℚ) := none
  header_row : Option Bool := none
  row_heights : Option (List ℚ) := none
  table_height : Option ℚ := none
  orientation : String := ""
  margins : Option (ℚ × ℚ × ℚ × ℚ) := none
  y0 : ℚ := 0
  x0 : ℚ := 0
deriving DecidableEq

/-- Per-page element order: ascending `(_y0, _x0)`. -/
def elemLE (a b : Element) : Prop := qpairLE (a.y0, a.x0) (b.y0, b.x0)

instance : DecidableRel elemLE := fun a b => by unfold elemLE; infer_instance

instance : IsTotal Element elemLE := ⟨fun _ _ => qpairLE_total _ _⟩

instance : IsTrans Element elemLE := ⟨fun _ _ _ => qpairLE_trans⟩

/-- The whole extractor output consumed by `SemanticAnalyzer.analyze`. -/
structure Extracted where
  text_blocks : List Block := []
  images : List Image := []
  tables : List TableIn := []
  links : List Link := []
  pages : List PageMeta := []
deriving DecidableEq

/-! ### List-item detection and the merge heuristic -/

/-- The fixed bullet character set of the source. -/
def bulletChars : List Char := ['•', '●', '○', '■', '□', '-', '*', '▪']

/-- Roman-numeral character class of the ordered-list regex. -/
def isRoman (c : Char) : Bool :=
  c ∈ (['i', 'v', 'x', 'l', 'c', 'd', 'm', 'I', 'V', 'X', 'L', 'C', 'D', 'M'] : List Char)

/-- The regex class `[a-zA-Z]`. -/
def isAsciiLetter (c : Char) : Bool := ('a' ≤ c && c ≤ 'z') || ('A' ≤ c && c ≤ 'Z')

/-- A `.` or `)` followed by a whitespace character: the tail of the
ordered-list prefix regex. -/
def punctThenWS : List Char → Bool
  | p :: w :: _ => (p = '.' || p = ')') && isWS w
  | _ => false

/-- Length of the match of the ordered-list prefix regex (digits, one ASCII
letter, or roman numerals, then `.`/`)` and a whitespace), `none` when it does
not match.  Greedy `+` with a following class disjoint from the repeated one
means only the maximal run can be followed by the punctuation, so the
backtracking regex reduces to this disjunction; when both the single-letter
and the roman alternative match, the run has length one and the match ends at
the same index, so the alternation order does not matter. -/
def orderedListEnd (cs : List Char) : Option Nat :=
  let ds := cs.takeWhile Char.isDigit
  if ds ≠ [] && punctThenWS (cs.drop ds.length) then some (ds.length + 2)
  else if (match cs with
           | c :: rest => isAsciiLetter c && punctThenWS rest
           | [] => false) then some 3
  else
    let rs := cs.takeWhile isRoman
    if rs ≠ [] && punctThenWS (cs.drop rs.length) then some (rs.length + 2)
    else none

/-- `SemanticAnalyzer._is_list_start`. -/
def isListStart (text : String) : Bool :=
  match lstripL text.data with
  | [] => false
  | c :: rest =>
    c ∈ bulletChars || (orderedListEnd (c :: rest)).isSome

/-- `SemanticAnalyzer._should_merge`. -/
def shouldMerge (prev curr : Block) (bodySize : ℚ) (pageWidth : ℚ) : Bool :=
  if isListStart curr.text then false
  else if prev.font ≠ curr.font then false
  else if prev.size ≠ curr.size then false
  else if prev.bold ≠ curr.bold then false
  else if prev.italic ≠ curr.italic then false
  else
    let size := if curr.size = 0 then bodySize else curr.size
    let yGap := curr.y0 - prev.y1
    if yGap ≥ 1.5 * size then false
    else
      let lineWidth := prev.x1 - prev.x0
      let contentWidth := max (pageWidth - 144) (pageWidth * 0.6)
      if contentWidth > 0 ∧ lineWidth < contentWidth * 0.6 then false
      else true

/-! ### Rounding, list metadata, alignment, margins -/

/-- Round-half-to-even on rationals (Python's `round`). -/
def roundHalfEven (r : ℚ) : ℤ :=
  let f := ⌊r⌋
  let frac := r - f
  if frac < 1/2 then f
  else if 1/2 < frac then f + 1
  else if f % 2 = 0 then f else f + 1

/-- Python's `round(x, 1)`. -/
def roundQ1 (x : ℚ) : ℚ := (roundHalfEven (x * 10) : ℚ) / 10

/-- `SemanticAnalyzer._detect_list`: strip the bullet or ordered prefix and
compute the nesting level `int(indent_pts / 20)` (indent is clamped at 0, so
truncation equals floor). -/
def detectList (text : String) (x0 bodyX0 : ℚ) : Option (String × Nat × String) :=
  match lstripL text.data with
  | [] => none
  | c :: rest =>
    let indentPts := max (x0 - bodyX0) 0
    let level := (⌊indentPts / 20⌋).toNat
    if c ∈ bulletChars then some (⟨lstripL rest⟩, level, "bullet")
    else match orderedListEnd (c :: rest) with
      | some e => some (⟨lstripL ((c :: rest).drop e)⟩, level, "number")
      | none => none

/-- `SemanticAnalyzer._detect_alignment`. -/
def detectAlignment (blocks : List Block) (bodyX0 pageWidth : ℚ) : String :=
  if blocks = [] ∨ pageWidth ≤ 0 then "left"
  else
    let n : ℚ := blocks.length
    let avgX0 := ((blocks.map (fun b => b.x0)).sum) / n
    let avgX1 := ((blocks.map (fun b => b.x1)).sum) / n
    let textCenter := (avgX0 + avgX1) / 2
    let pageCenter := pageWidth / 2
    if |textCenter - pageCenter| < 10 then "center"
    else if avgX1 ≥ pageWidth * 0.95 ∧ avgX0 > bodyX0 + 10 then "right"
    else "left"

/-- `SemanticAnalyzer._estimate_body_x0`: the most common rounded `x0`,
weighted by text length, first-inserted key winning ties. -/
def estimateBodyX0 (blocks : List Block) : ℚ :=
  if blocks = [] then 0
  else
    let w := fun x => ((blocks.filter (fun b => roundQ1 b.x0 = x)).map
      (fun b => max b.text.length 1)).sum
    match dedupFirst (blocks.map (fun b => roundQ1 b.x0)) with
    | [] => 0
    | k :: ks => firstMax w ks k

/-! ### Header / footer detection -/

/-- `pages_meta[page_num].get("height", 792)` with the bounds check of the
source (falls back to US-Letter height). -/
def pageHeightOf (metas : List PageMeta) (pn : Nat) : ℚ :=
  match metas.get? pn with
  | some m => m.height
  | none => 792

/-- Block has its whole box inside the top 8% zone of its page. -/
def blockTopZone (metas : List PageMeta) (b : Block) : Bool :=
  b.y1 ≤ pageHeightOf metas b.page_num * 0.08

/-- Block is in the bottom 8% zone (the source's `elif`: only when not already
counted in the top zone). -/
def blockBottomZone (metas : List PageMeta) (b : Block) : Bool :=
  ¬ blockTopZone metas b ∧ b.y0 ≥ pageHeightOf metas b.page_num * (1 - 0.08)

/-- The distinct pages on which stripped text `t` appears entirely within the
top zone. -/
def topPages (blocks : List Block) (metas : List PageMeta) (t : String) : List Nat :=
  dedupFirst (((blocks.filter (fun b => pyStrip b.text = t ∧ blockTopZone metas b)).map
    (fun b => b.page_num)))

/-- Pages on which `t` appears in the bottom zone. -/
def bottomPages (blocks : List Block) (metas : List PageMeta) (t : String) : List Nat :=
  dedupFirst (((blocks.filter (fun b => pyStrip b.text = t ∧ blockBottomZone metas b)).map
    (fun b => b.page_num)))

/-- Membership in `header_set`: non-empty text whose top-zone page count
reaches `max(page_count * 0.50, 3)`. -/
def isHeaderText (blocks : List Block) (metas : List PageMeta) (pageCount : Nat)
    (t : String) : Bool :=
  t ≠ "" && ((topPages blocks metas t).length : ℚ) ≥ max ((pageCount : ℚ) * 0.50) 3

/-- Membership in `footer_set`. -/
def isFooterText (blocks : List Block) (metas : List PageMeta) (pageCount : Nat)
    (t : String) : Bool :=
  t ≠ "" && ((bottomPages blocks metas t).length : ℚ) ≥ max ((pageCount : ℚ) * 0.50) 3

/-- `SemanticAnalyzer._detect_headers_footers`.  The emitted text lists keep
the first-occurrence order of the block list; a text qualifying as BOTH header
and footer is emitted as a header only (the source's first `continue` wins),
and every block whose stripped text is in either set is removed. -/
def detectHeadersFooters (blocks : List Block) (metas : List PageMeta)
    (pageCount : Nat) : List String × List String × List Block :=
  if pageCount < 3 ∨ blocks = [] then ([], [], blocks)
  else
    let isH := isHeaderText blocks metas pageCount
    let isF := isFooterText blocks metas pageCount
    let headers := dedupFirst ((blocks.map (fun b => pyStrip b.text)).filter isH)
    let footers := dedupFirst ((blocks.map (fun b => pyStrip b.text)).filter
      (fun t => isF t ∧ ¬ isH t))
    let filtered := blocks.filter (fun b => ¬ isH (pyStrip b.text) ∧ ¬ isF (pyStrip b.text))
    (headers, footers, filtered)

/-! ### Group finalization -/

/-- `font_map.get(name, fallback)`. -/
def lookupMap (m : List (String × String)) (k : String) (d : String) : String :=
  ((m.find? (fun p => p.1 = k)).map (fun p => p.2)).getD d

/-- `heading_lookup.get((font, size))`. -/
def headingLevelFor (hf : List HeadingFont) (name : String) (size : ℚ) : Option Nat :=
  (hf.find? (fun h => h.name = name ∧ h.size = size)).map (fun h => h.level)

/-- Text-joining separators: a newline when the inter-block vertical gap
exceeds the representative size, else a single space. -/
def joinParts (size : ℚ) : Block → List Block → List String
  | _, [] => []
  | prev, c :: cs =>
    (if c.y0 - prev.y1 > size then "\n" else " ") :: c.text :: joinParts size c cs

/-- The merged (and stripped) text of a group. -/
def mergedTextOf (g : List Block) (size : ℚ) : String :=
  match g with
  | [] => ""
  | b :: rest => pyStrip (String.join (b.text :: joinParts size b rest))

/-- One styled run from one block (the run dict the source builds; the block's
own fields are all present in this model, so the `dict.get` defaults never
fire). -/
def runOfBlock (fontMap : List (String × String)) (cfgFb : String) (txt : String)
    (b : Block) : Run :=
  { text := txt
    font := lookupMap fontMap (stripSubsetTag b.font) cfgFb
    size := b.size
    bold := b.bold
    italic := b.italic
    color := b.color
    underline := b.underline
    strikethrough := b.strikethrough
    superscript := b.superscript
    highlight_color := b.highlight_color
    x0 := b.x0
    y0 := b.y0
    x1 := b.x1
    y1 := b.y1 }

/-- Runs after the first block: a bare newline separator run when the gap
exceeds the size, otherwise a leading space glued onto the block's text. -/
def runsTail (fontMap : List (String × String)) (cfgFb : String) (size : ℚ) :
    Block → List Block → List Run
  | _, [] => []
  | prev, c :: cs =>
    if c.y0 - prev.y1 > size then
      { text := "\n" } :: runOfBlock fontMap cfgFb c.text c :: runsTail fontMap cfgFb size c cs
    else
      runOfBlock fontMap cfgFb (" " ++ c.text) c :: runsTail fontMap cfgFb size c cs

def runsOf (fontMap : List (String × String)) (cfgFb : String) (size : ℚ) :
    List Block → List Run
  | [] => []
  | b :: rest => runOfBlock fontMap cfgFb b.text b :: runsTail fontMap cfgFb size b rest

/-- Line-spacing detection: the average positive `y0` delta between
consecutive blocks over the font size, rounded to one decimal, kept only when
in `[0.8, 3.0]` and farther than `0.15` from single spacing. -/
def lineSpacingOf (g : List Block) (size : ℚ) : Option ℚ :=
  if 2 ≤ g.length then
    let gaps := ((g.zip g.tail).map (fun pc => pc.2.y0 - pc.1.y0)).filter (fun gp => 0 < gp)
    if gaps ≠ [] ∧ 0 < size then
      let avg := gaps.sum / (gaps.length : ℚ)
      let r := roundQ1 (avg / size)
      if 0.8 ≤ r ∧ r ≤ 3.0 ∧ 0.15 < |r - 1| then some r else none
    else none
  else none

/-- First-line indent: the first block's `x0` over the mean of the rest, when
the difference exceeds 8pt. -/
def firstLineIndentOf (g : List Block) : ℚ :=
  if 2 ≤ g.length then
    match g with
    | [] => 0
    | b :: rest =>
      let avgRest := ((rest.map (fun r => r.x0)).sum) / (rest.length : ℚ)
      let diff := b.x0 - avgRest
      if 8 < diff then diff else 0
  else 0

/-- `SemanticAnalyzer._finalize_group`.  `cfgFb` is
`config.get("fallback_font", "Arial")`. -/
def finalizeGroup (cfgFb : String) (group : List Block) (pageNum : Nat)
    (bodyX0 : ℚ) (headingFonts : List HeadingFont)
    (fontMap : List (String × String)) (pageWidth : ℚ) (prevY1 : ℚ) : Element :=
  let rep := group.headD {}
  let cleanFont := stripSubsetTag rep.font
  let size := rep.size
  let fallbackFont := lookupMap fontMap cleanFont cfgFb
  let mergedText := mergedTextOf group size
  let runs := runsOf fontMap cfgFb size group
  let y0 := rep.y0
  let x0 := rep.x0
  let alignment := detectAlignment group bodyX0 pageWidth
  let spacingBefore := min (max (y0 - prevY1) 0) 72
  let indentLeft0 := max (x0 - bodyX0) 0
  let indentLeft := if indentLeft0 < 5 then 0 else indentLeft0
  let lineSpacing := lineSpacingOf group size
  let fli := firstLineIndentOf group
  let fmt : Fmt :=
    { font := fallbackFont, size := size, bold := rep.bold, italic := rep.italic,
      color := rep.color, alignment := alignment, spacing_before := spacingBefore,
      indent_left := indentLeft, line_spacing := lineSpacing }
  match headingLevelFor headingFonts cleanFont size with
  | some lvl =>
    { kind := "heading", level := lvl, text := mergedText, page_num := pageNum,
      formatting := fmt, y0 := y0, x0 := x0 }
  | none =>
    match detectList mergedText x0 bodyX0 with
    | some li =>
      { kind := "list_item", text := li.1, page_num := pageNum, level := li.2.1,
        bullet_type := li.2.2, formatting := fmt, y0 := y0, x0 := x0 }
    | none =>
      { kind := "paragraph", text := mergedText, runs := runs, page_num := pageNum,
        formatting := { fmt with
          first_line_indent := if 0 < fli then some fli else none },
        y0 := y0, x0 := x0 }

/-! ### Paragraph grouping -/

/-- `group[-1]` (groups are never empty in the source loop). -/
def lastBlock (g : List Block) : Block := g.getLast?.getD {}

/-- The grouping loop of `SemanticAnalyzer._process_text_blocks`: the state is
the running group and the previous finalized group's bottom edge. -/
def groupLoop (cfgFb : String) (pageNum : Nat) (bodySize bodyX0 : ℚ)
    (hf : List HeadingFont) (fontMap : List (String × String)) (pageWidth : ℚ) :
    List Block → ℚ → List Block → List Element
  | group, prevY1, [] =>
    [finalizeGroup cfgFb group pageNum bodyX0 hf fontMap pageWidth prevY1]
  | group, prevY1, b :: rest =>
    if shouldMerge (lastBlock group) b bodySize pageWidth then
      groupLoop cfgFb pageNum bodySize bodyX0 hf fontMap pageWidth (group ++ [b]) prevY1 rest
    else
      finalizeGroup cfgFb group pageNum bodyX0 hf fontMap pageWidth prevY1 ::
        groupLoop cfgFb pageNum bodySize bodyX0 hf fontMap pageWidth [b] (lastBlock group).y1 rest

/-- `SemanticAnalyzer._process_text_blocks`. -/
def processTextBlocks (cfgFb : String) (blocks : List Block) (pageNum : Nat)
    (bodySize bodyX0 : ℚ) (hf : List HeadingFont)
    (fontMap : List (String × String)) (pageWidth : ℚ) : List Element :=
  match blocks.insertionSort blockLE with
  | [] => []
  | b :: rest => groupLoop cfgFb pageNum bodySize bodyX0 hf fontMap pageWidth [b] 0 rest

/-! ### Page assembly -/

/-- `SemanticAnalyzer._page_dimensions`. -/
def pageDimensions (metas : List PageMeta) (pn : Nat) : ℚ × ℚ :=
  match metas.get? pn with
  | some m => (m.width, m.height)
  | none => (612, 792)

/-- `SemanticAnalyzer._make_image_element`. -/
def makeImageElement (img : Image) : Element :=
  { kind := "image", path := img.path, width := img.width, height := img.height,
    page_num := img.page_num, y0 := img.y0, x0 := img.x0 }

/-- `SemanticAnalyzer._make_table_element`. -/
def makeTableElement (tbl : TableIn) : Element :=
  { kind := "table", rows := tbl.rows,
    num_rows := tbl.num_rows.getD tbl.rows.length,
    num_cols := tbl.num_cols.getD (tbl.rows.headD []).length,
    page_num := tbl.page_num, y0 := tbl.y0, x0 := tbl.x0,
    col_widths := tbl.col_widths, header_row := tbl.header_row,
    row_heights := tbl.row_heights, table_height := tbl.table_height }

/-- The page-break element inserted before a new page (metadata of the
upcoming page; missing metadata reads as portrait with no margins). -/
def pageBreakElement (metas : List PageMeta) (p : Nat) : Element :=
  { kind := "page_break", page_num := p,
    orientation := if ((metas.get? p).map (fun m => m.is_landscape)).getD false
      then "landscape" else "portrait",
    margins := (metas.get? p).bind (fun m => m.margins) }

/-- The text elements of one page: layout analysis, the multi-column
validation gate (at least two columns holding at least three blocks each) and
per-column or single-column grouping. -/
def pageTextElements (cfgFb : String) (bodySize : ℚ) (hf : List HeadingFont)
    (fontMap : List (String × String)) (pageBlocks : List Block)
    (pw ph : ℚ) (p : Nat) : List Element :=
  let layout := layoutAnalyze pageBlocks pw ph
  let realCols := (layout.blocksByColumn.filter (fun blks => 3 ≤ blks.length)).length
  let numColumns := if 1 < layout.numColumns ∧ realCols < 2 then 1 else layout.numColumns
  if 1 < numColumns then
    layout.blocksByColumn.flatMap (fun colBlocks =>
      processTextBlocks cfgFb colBlocks p bodySize (estimateBodyX0 colBlocks) hf fontMap pw)
  else
    processTextBlocks cfgFb pageBlocks p bodySize (estimateBodyX0 pageBlocks) hf fontMap pw

/-- All elements of one page, stably sorted by `(_y0, _x0)`. -/
def pageElements (cfgFb : String) (bodySize : ℚ) (hf : List HeadingFont)
    (fontMap : List (String × String)) (d : Extracted) (blocks : List Block)
    (p : Nat) : List Element :=
  let dims := pageDimensions d.pages p
  let texts := pageTextElements cfgFb bodySize hf fontMap
    (blocks.filter (fun b => b.page_num = p)) dims.1 dims.2 p
  let imgs := (d.images.filter (fun i => i.page_num = p)).map makeImageElement
  let tbls := (d.tables.filter (fun t => t.page_num = p)).map makeTableElement
  (texts ++ imgs ++ tbls).insertionSort elemLE

/-- The per-page loop of `SemanticAnalyzer.analyze`: a page break before every
page other than the first. -/
def pagesLoop (cfgFb : String) (bodySize : ℚ) (hf : List HeadingFont)
    (fontMap : List (String × String)) (d : Extracted) (blocks : List Block) :
    List Nat → Option Nat → List Element
  | [], _ => []
  | p :: rest, prev =>
    (if prev ≠ none ∧ prev ≠ some p then [pageBreakElement d.pages p] else []) ++
    pageElements cfgFb bodySize hf fontMap d blocks p ++
    pagesLoop cfgFb bodySize hf fontMap d blocks rest (some p)

/-! ### Hyperlink attachment -/

/-- Open-rectangle overlap between a run's box and a link's
`(x0, y0, x1, y1)` rectangle. -/
def runOverlaps (l : Link) (r : Run) : Bool :=
  r.x1 > l.bbox.1 && r.x0 < l.bbox.2.2.1 && r.y1 > l.bbox.2.1 && r.y0 < l.bbox.2.2.2

/-- One link against one element: join the texts of the overlapping runs with
spaces, strip, and locate the first occurrence in the element's full text. -/
def matchLink (e : Element) (l : Link) : Option LinkRange :=
  let parts := (e.runs.filter (runOverlaps l)).map (fun r => r.text)
  if parts = [] then none
  else
    let lt := pyStrip (String.intercalate " " parts)
    match strFind e.text.data lt.data with
    | none => none
    | some i => some { text := lt, uri := l.uri, start := i, stop := i + lt.length }

/-- `SemanticAnalyzer._attach_links` restricted to one element: only
paragraphs and headings on a page that has links, with non-empty text and
runs, receive a `links` field. -/
def attachElem (links : List Link) (e : Element) : Element :=
  if links = [] then e
  else if e.kind ≠ "paragraph" ∧ e.kind ≠ "heading" then e
  else
    let pageLinks := links.filter (fun l => l.page_num = e.page_num)
    if pageLinks = [] then e
    else if e.text = "" ∨ e.runs = [] then e
    else
      let matched := pageLinks.filterMap (matchLink e)
      if matched = [] then e else { e with links := matched }

def attachLinksAll (links : List Link) (elems : List Element) : List Element :=
  elems.map (attachElem links)

/-! ### Top-level `SemanticAnalyzer.analyze` -/

/-- `page_count`: metadata page count, else max block page number plus one. -/
def pageCountOf (d : Extracted) : Nat :=
  if d.pages ≠ [] then d.pages.length
  else natListMax (d.text_blocks.map (fun b => b.page_num)) + 1

/-- Header/footer detection over the whole document. -/
def hfSplit (d : Extracted) : List String × List String × List Block :=
  detectHeadersFooters d.text_blocks d.pages (pageCountOf d)

/-- The span working set with header/footer spans removed. -/
def workingBlocks (d : Extracted) : List Block := (hfSplit d).2.2

/-- `sorted(all_page_nums)`: the distinct page numbers of the remaining
blocks, the images and the tables, in increasing order. -/
def sortedPageNums (d : Extracted) : List Nat :=
  (dedupFirst ((workingBlocks d).map (fun b => b.page_num) ++
    d.images.map (fun i => i.page_num) ++
    d.tables.map (fun t => t.page_num))).insertionSort (· ≤ ·)

/-- The header/footer elements inserted at the front of the output (footer
inserted first at index 0, then the header, so the header is listed first). -/
def hfPrefixElems (d : Extracted) : List Element :=
  (if (hfSplit d).1 ≠ [] then
    [{ kind := "header", text := String.intercalate "\n" (hfSplit d).1 }] else []) ++
  (if (hfSplit d).2.1 ≠ [] then
    [{ kind := "footer", text := String.intercalate "\n" (hfSplit d).2.1 }] else [])

/-- `SemanticAnalyzer.analyze`, for the default configuration (`config=None`,
hence fallback font `"Arial"`), composed from the component passes exactly as
the source orchestrates them. -/
def analyzeModel (d : Extracted) : List Element :=
  let fp := fontAnalyze d.text_blocks
  hfPrefixElems d ++
    attachLinksAll d.links
      (pagesLoop "Arial" fp.bodySize fp.headingFonts fp.fontMap d (workingBlocks d)
        (sortedPageNums d) none)

/-! ## Generic lemmas about the helper combinators -/

theorem mem_dedupFirst {α : Type} [DecidableEq α] {a : α} :
    ∀ {l : List α}, a ∈ dedupFirst l ↔ a ∈ l := by
  intro l
  induction l with
  | nil => simp [dedupFirst]
  | cons x xs ih =>
    simp only [dedupFirst, List.mem_cons, List.mem_filter]
    constructor
    · rintro (rfl | ⟨h1, _⟩)
      · exact Or.inl rfl
      · exact Or.inr (ih.mp h1)
    · rintro (rfl | h)
      · exact Or.inl rfl
      · by_cases hax : a = x
        · exact Or.inl hax
        · exact Or.inr ⟨ih.mpr h, by simpa using hax⟩

theorem nodup_dedupFirst {α : Type} [DecidableEq α] :
    ∀ (l : List α), (dedupFirst l).Nodup := by
  intro l
  induction l with
  | nil => simp [dedupFirst]
  | cons x xs ih =>
    simp only [dedupFirst]
    refine List.Nodup.cons ?_ (List.Nodup.filter _ ih)
    intro hmem
    rcases List.mem_filter.mp hmem with ⟨_, hne⟩
    simp at hne

theorem firstMax_mem {α : Type} (w : α → Nat) :
    ∀ (ks : List α) (best : α), firstMax w ks best ∈ best :: ks := by
  intro ks
  induction ks with
  | nil => intro best; simp [firstMax]
  | cons k2 ks ih =>
    intro best
    by_cases h : w best < w k2
    · have he : firstMax w (k2 :: ks) best = firstMax w ks k2 := by rw [firstMax, if_pos h]
      rw [he]
      rcases List.mem_cons.mp (ih k2) with heq | hmem
      · rw [heq]; exact List.mem_cons_of_mem _ (List.mem_cons_self _ _)
      · exact List.mem_cons_of_mem _ (List.mem_cons_of_mem _ hmem)
    · have he : firstMax w (k2 :: ks) best = firstMax w ks best := by rw [firstMax, if_neg h]
      rw [he]
      rcases List.mem_cons.mp (ih best) with heq | hmem
      · rw [heq]; exact List.mem_cons_self _ _
      · exact List.mem_cons_of_mem _ (List.mem_cons_of_mem _ hmem)

theorem firstMax_ge {α : Type} (w : α → Nat) :
    ∀ (ks : List α) (best : α), ∀ k ∈ best :: ks, w k ≤ w (firstMax w ks best) := by
  intro ks
  induction ks with
  | nil =>
    intro best k hk
    simp only [firstMax]
    rcases List.mem_singleton.mp hk with rfl
    exact le_refl _
  | cons k2 ks ih =>
    intro best k hk
    by_cases h : w best < w k2
    · have he : firstMax w (k2 :: ks) best = firstMax w ks k2 := by rw [firstMax, if_pos h]
      rw [he]
      rcases List.mem_cons.mp hk with heq | hk'
      · rw [heq]
        exact le_trans (le_of_lt h) (ih k2 k2 (List.mem_cons_self _ _))
      · exact ih k2 k hk'
    · have he : firstMax w (k2 :: ks) best = firstMax w ks best := by rw [firstMax, if_neg h]
      rw [he]
      rcases List.mem_cons.mp hk with heq | hk'
      · rw [heq]
        exact ih best best (List.mem_cons_self _ _)
      · rcases List.mem_cons.mp hk' with heq2 | hk''
        · rw [heq2]
          exact le_trans (Nat.le_of_not_lt h) (ih best best (List.mem_cons_self _ _))
        · exact ih best k (List.mem_cons_of_mem _ hk'')

theorem firstMax_first {α : Type} [DecidableEq α] (w : α → Nat) :
    ∀ (ks : List α) (best : α),
      ∀ k ∈ (best :: ks).takeWhile (fun x => x ≠ firstMax w ks best),
        w k < w (firstMax w ks best) := by
  intro ks
  induction ks with
  | nil =>
    intro best k hk
    simp [firstMax, List.takeWhile] at hk
  | cons k2 ks ih =>
    intro best k hk
    by_cases h : w best < w k2
    · have he : firstMax w (k2 :: ks) best = firstMax w ks k2 := by rw [firstMax, if_pos h]
      rw [he] at hk ⊢
      have hk2m : w k2 ≤ w (firstMax w ks k2) := firstMax_ge w ks k2 k2 (List.mem_cons_self _ _)
      have hbm : w best < w (firstMax w ks k2) := lt_of_lt_of_le h hk2m
      have hbne : best ≠ firstMax w ks k2 := fun e => absurd (e ▸ hbm) (lt_irrefl _)
      rw [List.takeWhile_cons, if_pos (by simp [hbne])] at hk
      rcases List.mem_cons.mp hk with heq | hk'
      · rw [heq]; exact hbm
      · exact ih k2 k hk'
    · have he : firstMax w (k2 :: ks) best = firstMax w ks best := by rw [firstMax, if_neg h]
      rw [he] at hk ⊢
      by_cases hbm : best = firstMax w ks best
      · rw [List.takeWhile_cons, if_neg (by rw [← hbm]; simp)] at hk
        simp at hk
      · rw [List.takeWhile_cons, if_pos (by simp [hbm])] at hk
        have hbw : w best < w (firstMax w ks best) := by
          apply ih best
          rw [List.takeWhile_cons, if_pos (by simp [hbm])]
          exact List.mem_cons_self _ _
        rcases List.mem_cons.mp hk with heq | hk'
        · rw [heq]; exact hbw
        · by_cases hk2m : k2 = firstMax w ks best
          · rw [List.takeWhile_cons, if_neg (by simp [hk2m])] at hk'
            simp at hk'
          · rw [List.takeWhile_cons, if_pos (by simp [hk2m])] at hk'
            rcases List.mem_cons.mp hk' with heq2 | hk''
            · rw [heq2]
              exact lt_of_le_of_lt (Nat.le_of_not_lt h) hbw
            · apply ih best
              rw [List.takeWhile_cons, if_pos (by simp [hbm])]
              exact List.mem_cons_of_mem _ hk''

/-! ## C5: the body font is the heaviest length-weighted combination -/

theorem fontKeyList_ne_nil {blocks : List Block} (h : blocks ≠ []) :
    fontKeyList blocks ≠ [] := by
  cases blocks with
  | nil => exact absurd rfl h
  | cons b bs => simp [fontKeyList, dedupFirst]

/-- C5: for every non-empty span set, the body font returned by the font
classifier is a `(subset-stripped font, size)` combination occurring in the
input whose total weight (each span contributing `max(len(text), 1)`) is
maximal, and the tie-break is deterministic: it is the FIRST combination (in
first-occurrence order, the `Counter` insertion order) attaining the maximal
weight, every earlier combination being strictly lighter.  The profile
returned by `analyze` carries exactly this combination. -/
theorem c5_body_font_heaviest (blocks : List Block) (hne : blocks ≠ []) :
    bodyFontOf blocks ∈ fontKeyList blocks ∧
    (∀ k ∈ fontKeyList blocks, keyWeight blocks k ≤ keyWeight blocks (bodyFontOf blocks)) ∧
    (∀ k ∈ (fontKeyList blocks).takeWhile (fun x => x ≠ bodyFontOf blocks),
      keyWeight blocks k < keyWeight blocks (bodyFontOf blocks)) ∧
    (fontAnalyze blocks).bodyName = (bodyFontOf blocks).1 ∧
    (fontAnalyze blocks).bodySize = (bodyFontOf blocks).2 := by
  have hkl := fontKeyList_ne_nil hne
  cases h : fontKeyList blocks with
  | nil => exact absurd h hkl
  | cons k ks =>
    have hb : bodyFontOf blocks = firstMax (keyWeight blocks) ks k := by
      simp only [bodyFontOf, h]
    refine ⟨?_, ?_, ?_, ?_, ?_⟩
    · rw [hb]; exact firstMax_mem _ ks k
    · rw [hb]; exact firstMax_ge _ ks k
    · rw [hb]; exact firstMax_first _ ks k
    · unfold fontAnalyze; rw [if_neg hne]
    · unfold fontAnalyze; rw [if_neg hne]

/-- Concrete instance discharging C5's hypothesis: two combinations with
weights 3 and 5; the heavier one (`G` at 12pt) is the body font and the
lighter one is bounded by it. -/
theorem c5_witness :
    bodyFontOf [{ text := "abc", font := "F", size := 10 },
      { text := "hello", font := "G", size := 12 }] = ("G", 12) ∧
    keyWeight [{ text := "abc", font := "F", size := 10 },
      { text := "hello", font := "G", size := 12 }] ("F", 10) ≤
      keyWeight [{ text := "abc", font := "F", size := 10 },
        { text := "hello", font := "G", size := 12 }]
        (bodyFontOf [{ text := "abc", font := "F", size := 10 },
          { text := "hello", font := "G", size := 12 }]) := by
  refine ⟨by with_unfolding_all decide, ?_⟩
  exact (c5_body_font_heaviest _ (by simp)).2.1 ("F", 10) (by with_unfolding_all decide)

/-! ## C6: heading levels from size ratios -/

theorem headingLevelOf_mono {r1 r2 : ℚ} {b1 b2 : Bool} {l1 l2 : Nat}
    (h1 : headingLevelOf r1 b1 = some l1) (h2 : headingLevelOf r2 b2 = some l2)
    (hr : r1 ≤ r2) : l2 ≤ l1 := by
  unfold headingLevelOf at h1 h2
  split_ifs at h1 <;> split_ifs at h2 <;> simp_all <;> first | omega | linarith

/-- C6: a combination appears in the detected heading list only if its size
strictly exceeds the body size, and its level is exactly the one assigned by
the ratio thresholds (ratio at least 1.4 gives level 1, else at least 1.2
gives level 2, else at least 1.05 together with bold gives level 3, else no
heading); conversely every qualifying combination appears.  The returned list
is sorted by `(level, -size)`, and the level is a non-increasing function of
the ratio: among detected headings, a larger (or equal) ratio never receives a
larger level number. -/
theorem c6_heading_classification (blocks : List Block) (bodySize : ℚ) :
    (∀ hf ∈ detectHeadingFonts blocks bodySize,
        bodySize < hf.size ∧
        headingLevelOf (hf.size / bodySize) (anyBold blocks (hf.name, hf.size)) =
          some hf.level) ∧
    (∀ k ∈ fontKeyList blocks, ∀ lvl, bodySize < k.2 → 0 < bodySize →
        headingLevelOf (k.2 / bodySize) (anyBold blocks k) = some lvl →
        HeadingFont.mk k.1 k.2 lvl ∈ detectHeadingFonts blocks bodySize) ∧
    List.Pairwise headingLE (detectHeadingFonts blocks bodySize) ∧
    (∀ h1 ∈ detectHeadingFonts blocks bodySize,
      ∀ h2 ∈ detectHeadingFonts blocks bodySize,
        0 < bodySize → h1.size ≤ h2.size → h2.level ≤ h1.level) := by
  by_cases hb : bodySize ≤ 0
  · unfold detectHeadingFonts
    rw [if_pos hb]
    refine ⟨by simp, ?_, by simp, by simp⟩
    intro k _ lvl _ hpos _
    exact absurd hpos (by linarith)
  · have hmem : ∀ hf, hf ∈ detectHeadingFonts blocks bodySize ↔
        ∃ k ∈ fontKeyList blocks, ¬ k.2 ≤ bodySize ∧
          headingLevelOf (k.2 / bodySize) (anyBold blocks k) = some hf.level ∧
          hf = HeadingFont.mk k.1 k.2 hf.level := by
      intro hf
      unfold detectHeadingFonts
      rw [if_neg hb]
      rw [(List.perm_insertionSort headingLE _).mem_iff, List.mem_filterMap]
      constructor
      · rintro ⟨k, hk, hfk⟩
        split_ifs at hfk with hle
        rcases Option.map_eq_some'.mp hfk with ⟨lvl, hlvl, rfl⟩
        exact ⟨k, hk, hle, hlvl, rfl⟩
      · rintro ⟨k, hk, hle, hlvl, heq⟩
        refine ⟨k, hk, ?_⟩
        rw [if_neg hle, hlvl]
        simp only [Option.map_some']
        rw [← heq]
    have hfwd : ∀ hf ∈ detectHeadingFonts blocks bodySize,
        bodySize < hf.size ∧
        headingLevelOf (hf.size / bodySize) (anyBold blocks (hf.name, hf.size)) =
          some hf.level := by
      intro hf hhf
      rcases (hmem hf).mp hhf with ⟨k, _, hle, hlvl, heq⟩
      cases k with
      | mk kn ksz =>
        rw [heq]
        exact ⟨lt_of_not_le hle, hlvl⟩
    refine ⟨hfwd, ?_, ?_, ?_⟩
    · intro k hk lvl hlt _ hlvl
      exact (hmem (HeadingFont.mk k.1 k.2 lvl)).mpr
        ⟨k, hk, not_le.mpr hlt, hlvl, by cases k; rfl⟩
    · unfold detectHeadingFonts
      rw [if_neg hb]
      exact List.sorted_insertionSort headingLE _
    · intro h1 hh1 h2 hh2 hpos hsz
      rcases hfwd h1 hh1 with ⟨_, hl1⟩
      rcases hfwd h2 hh2 with ⟨_, hl2⟩
      exact headingLevelOf_mono hl1 hl2 (by gcongr)

/-- Blocks used to instantiate the heading theorems: a dominant 10pt body font
and one 16pt font (ratio 1.6, heading level 1). -/
def c6Blocks : List Block :=
  [{ text := "plenty of body text here", font := "Body", size := 10 },
   { text := "Title", font := "Big", size := 16 }]

/-- Concrete instance discharging C6's hypotheses: the 16pt combination of
`c6Blocks` is detected as a level-1 heading over the 10pt body. -/
theorem c6_witness :
    (HeadingFont.mk "Big" 16 1) ∈ detectHeadingFonts c6Blocks 10 := by
  exact (c6_heading_classification c6Blocks 10).2.1 ("Big", 16)
    (by with_unfolding_all decide) 1 (by norm_num) (by norm_num)
    (by with_unfolding_all decide)

/-! ## C7: degenerate layout input -/

/-- C7 counterexample: on degenerate input (here an empty span list on a
positive 612x792 page) the analyzer returns the placeholder column boundary
`(0, 0)`, NOT a boundary spanning the full page width `(0, 612)` as the claim
states. -/
theorem c7_counterexample :
    (layoutAnalyze [] 612 792).columns = [((0 : ℚ), (0 : ℚ))] ∧
    ¬ (layoutAnalyze [] 612 792).columns = [((0 : ℚ), (612 : ℚ))] := by
  constructor
  · with_unfolding_all decide
  · with_unfolding_all decide

/-- C7 amended: for degenerate layout input (an empty span list, or a
non-positive page width or height), the analyzer returns exactly one column
whose boundary is the degenerate placeholder `(0.0, 0.0)` (not the full page
width), with every input span assigned to that single column and no section
breaks. -/
theorem c7_degenerate_single_column (blocks : List Block) (w h : ℚ)
    (hdeg : blocks = [] ∨ w ≤ 0 ∨ h ≤ 0) :
    layoutAnalyze blocks w h =
      { numColumns := 1, columns := [(0, 0)], blocksByColumn := [blocks],
        sectionBreaks := [] } := by
  unfold layoutAnalyze
  rw [if_pos hdeg]
  rfl

/-- Concrete instance discharging C7's hypothesis: one span on a page with
zero height. -/
theorem c7_witness :
    layoutAnalyze [{ text := "x", x0 := 10, y0 := 10, x1 := 20, y1 := 20 }] 612 0 =
      { numColumns := 1, columns := [(0, 0)],
        blocksByColumn := [[{ text := "x", x0 := 10, y0 := 10, x1 := 20, y1 := 20 }]],
        sectionBreaks := [] } :=
  c7_degenerate_single_column _ 612 0 (Or.inr (Or.inr le_rfl))

/-! ## C8: between one and three columns -/

theorem addToClusters_ne (gap : ℚ) (cl : List (List ℚ)) (y : ℚ) :
    addToClusters gap cl y ≠ [] := by
  unfold addToClusters
  split
  · simp
  · split <;> simp

theorem buildClusters_ne {gap : ℚ} {xs : List ℚ} (h : xs ≠ []) :
    buildClusters gap xs ≠ [] := by
  cases xs with
  | nil => exact absurd rfl h
  | cons x rest =>
    unfold buildClusters
    have hfold : ∀ (l : List ℚ) (cl : List (List ℚ)), cl ≠ [] →
        l.foldl (addToClusters gap) cl ≠ [] := by
      intro l
      induction l with
      | nil => intro cl hcl; simpa using hcl
      | cons y ys ih =>
        intro cl _
        simp only [List.foldl_cons]
        exact ih _ (addToClusters_ne gap cl y)
    exact hfold rest [[x]] (by simp)

theorem mergeClustersToMax3_eq_of_le {clusters : List (List ℚ)}
    (h : clusters.length ≤ 3) : mergeClustersToMax3 clusters = clusters := by
  unfold mergeClustersToMax3
  rw [dif_pos h]

theorem mergeClustersToMax3_step {clusters : List (List ℚ)}
    (h : 3 < clusters.length) :
    mergeClustersToMax3 clusters =
      mergeClustersToMax3 (mergeClusterAt clusters (minGapIdx clusters)) := by
  rw [mergeClustersToMax3]
  rw [dif_neg (by omega)]

theorem mergeClustersToMax3_length_eq3 :
    ∀ (n : Nat) (clusters : List (List ℚ)), clusters.length ≤ n →
      3 < clusters.length → (mergeClustersToMax3 clusters).length = 3 := by
  intro n
  induction n with
  | zero => intro clusters h1 h2; omega
  | succ n ih =>
    intro clusters h1 h2
    rw [mergeClustersToMax3_step h2]
    have hlen : (mergeClusterAt clusters (minGapIdx clusters)).length =
        clusters.length - 1 :=
      length_mergeClusterAt
        (by have := minGapIdx_lt (by omega : 2 ≤ clusters.length); omega)
    by_cases h3 : 3 < (mergeClusterAt clusters (minGapIdx clusters)).length
    · exact ih _ (by omega) h3
    · rw [mergeClustersToMax3_eq_of_le (by omega)]
      omega

theorem foldl_argmin_min {g : Nat → ℚ} :
    ∀ (l : List Nat) (init : Nat),
      (∀ x ∈ l, g (l.foldl (fun best i => if g i < g best then i else best) init) ≤ g x) ∧
      g (l.foldl (fun best i => if g i < g best then i else best) init) ≤ g init := by
  intro l
  induction l with
  | nil => intro init; exact ⟨by simp, le_refl _⟩
  | cons x xs ih =>
    intro init
    simp only [List.foldl_cons]
    rcases ih (if g x < g init then x else init) with ⟨h1, h2⟩
    have hstep : g (if g x < g init then x else init) ≤ g init := by
      split
      · next hx => exact le_of_lt hx
      · exact le_refl _
    have hstepx : g (if g x < g init then x else init) ≤ g x := by
      split
      · exact le_refl _
      · next hx => exact le_of_not_lt hx
    refine ⟨fun y hy => ?_, le_trans h2 hstep⟩
    rcases List.mem_cons.mp hy with heq | hy'
    · rw [heq]; exact le_trans h2 hstepx
    · exact h1 y hy'

theorem minGapIdx_min (clusters : List (List ℚ)) :
    ∀ i < clusters.length - 1, gapAt clusters (minGapIdx clusters) ≤ gapAt clusters i := by
  intro i hi
  unfold minGapIdx
  exact (foldl_argmin_min (g := gapAt clusters) (List.range (clusters.length - 1)) 0).1
    i (List.mem_range.mpr hi)

/-- C8: for every input the number of detected columns is between 1 and 3;
and whenever clustering yields more than three clusters, the merge loop
merges the adjacent pair of smallest inter-cluster gap (the first such pair),
one step at a time, until exactly three remain. -/
theorem c8_column_bound (blocks : List Block) (w h : ℚ) :
    (1 ≤ (layoutAnalyze blocks w h).numColumns ∧
      (layoutAnalyze blocks w h).numColumns ≤ 3) ∧
    (∀ clusters : List (List ℚ), 3 < clusters.length →
      (∀ i < clusters.length - 1,
        gapAt clusters (minGapIdx clusters) ≤ gapAt clusters i) ∧
      mergeClustersToMax3 clusters =
        mergeClustersToMax3 (mergeClusterAt clusters (minGapIdx clusters)) ∧
      (mergeClustersToMax3 clusters).length = 3) := by
  constructor
  · by_cases hdeg : blocks = [] ∨ w ≤ 0 ∨ h ≤ 0
    · unfold layoutAnalyze
      rw [if_pos hdeg]
      exact ⟨le_refl 1, by norm_num [singleColumnResult]⟩
    · unfold layoutAnalyze
      rw [if_neg hdeg]
      dsimp only
      split
      · exact ⟨le_refl 1, by norm_num [singleColumnResult]⟩
      · next hx0 =>
        have hne : buildClusters (0.20 * w)
            ((dedupFirst (blocks.map (fun b => b.x0))).insertionSort (· ≤ ·)) ≠ [] :=
          buildClusters_ne hx0
        set cl0 := buildClusters (0.20 * w)
          ((dedupFirst (blocks.map (fun b => b.x0))).insertionSort (· ≤ ·)) with hcl0
        by_cases h3 : 3 < cl0.length
        · rw [if_pos h3]
          dsimp only
          have := mergeClustersToMax3_length_eq3 cl0.length cl0 (le_refl _) h3
          omega
        · rw [if_neg h3]
          dsimp only
          have : cl0.length ≠ 0 := by
            intro hz
            exact hne (List.length_eq_zero.mp hz)
          omega
  · intro clusters hc
    exact ⟨minGapIdx_min clusters, mergeClustersToMax3_step hc,
      mergeClustersToMax3_length_eq3 clusters.length clusters (le_refl _) hc⟩

/-- Concrete instance discharging C8's hypotheses: the two-font block list
yields a column count in bounds, and a concrete four-cluster list is merged
down to exactly three. -/
theorem c8_witness :
    (1 ≤ (layoutAnalyze c6Blocks 612 792).numColumns ∧
      (layoutAnalyze c6Blocks 612 792).numColumns ≤ 3) ∧
    (mergeClustersToMax3 [[(0 : ℚ)], [(100 : ℚ)], [(200 : ℚ)], [(350 : ℚ)]]).length = 3 :=
  ⟨(c8_column_bound c6Blocks 612 792).1,
    ((c8_column_bound c6Blocks 612 792).2 [[(0 : ℚ)], [(100 : ℚ)], [(200 : ℚ)], [(350 : ℚ)]]
      (by norm_num)).2.2⟩

/-! ## C4 / C10: table column collapsing -/

theorem findComplAux_spec (rows : List (List String)) :
    ∀ (fuel s ci : Nat), findComplAux rows s fuel = some ci →
      s ≤ ci ∧ ci < s + fuel ∧ colsOverlap rows ci = false ∧
      ∀ j, s ≤ j → j < ci → colsOverlap rows j = true := by
  intro fuel
  induction fuel with
  | zero => intro s ci h; simp [findComplAux] at h
  | succ fuel ih =>
    intro s ci h
    rw [findComplAux] at h
    split at h
    · next hov =>
      cases h
      exact ⟨le_refl _, by omega, by simpa using hov, fun j hj1 hj2 => by omega⟩
    · next hov =>
      rcases ih (s + 1) ci h with ⟨h1, h2, h3, h4⟩
      refine ⟨by omega, by omega, h3, ?_⟩
      intro j hj1 hj2
      by_cases hjs : j = s
      · subst hjs
        simpa using hov
      · exact h4 j (by omega) hj2

theorem findComplementary_spec {rows : List (List String)} {ci : Nat}
    (h : findComplementary rows = some ci) :
    2 ≤ (rows.headD []).length ∧ ci + 1 < (rows.headD []).length ∧
    colsOverlap rows ci = false ∧ ∀ j < ci, colsOverlap rows j = true := by
  unfold findComplementary at h
  dsimp only at h
  split at h
  · exact absurd h (by simp)
  · next hn =>
    rcases findComplAux_spec rows _ 0 ci h with ⟨_, h2, h3, h4⟩
    exact ⟨by omega, by omega, h3, fun j hj => h4 j (by omega) hj⟩

theorem length_head_mergeColsAt {rows : List (List String)} {ci : Nat}
    (h : ci + 1 < (rows.headD []).length) :
    ((mergeColsAt rows ci).headD []).length + 1 = (rows.headD []).length := by
  cases rows with
  | nil => simp at h
  | cons r rest =>
    simp only [List.headD_cons] at h ⊢
    simp only [mergeColsAt, List.map_cons, List.headD_cons]
    rw [List.length_eraseIdx_of_lt (by simpa using h)]
    simp
    omega

theorem collapseIter_none {rows : List (List String)}
    (h : findComplementary rows = none) : ∀ fuel, collapseIter fuel rows = rows := by
  intro fuel
  cases fuel with
  | zero => rfl
  | succ n => rw [collapseIter, h]

theorem head_length_zero_none {rows : List (List String)}
    (h : (rows.headD []).length = 0) : findComplementary rows = none := by
  unfold findComplementary
  rw [if_pos (by omega)]

theorem collapseIter_fixpoint :
    ∀ (fuel : Nat) (rows : List (List String)), (rows.headD []).length ≤ fuel →
      findComplementary (collapseIter fuel rows) = none := by
  intro fuel
  induction fuel with
  | zero =>
    intro rows h
    simp only [collapseIter]
    exact head_length_zero_none (by omega)
  | succ n ih =>
    intro rows h
    rw [collapseIter]
    cases hf : findComplementary rows with
    | none => exact hf
    | some ci =>
      apply ih
      have hspec := findComplementary_spec hf
      have := length_head_mergeColsAt hspec.2.1
      omega

theorem collapseIter_stable :
    ∀ (fuel m : Nat) (rows : List (List String)), (rows.headD []).length ≤ fuel →
      collapseIter (fuel + m) rows = collapseIter fuel rows := by
  intro fuel
  induction fuel with
  | zero =>
    intro m rows h
    have hnone : findComplementary rows = none := head_length_zero_none (by omega)
    rw [collapseIter_none hnone, collapseIter_none hnone]
  | succ n ih =>
    intro m rows h
    have hsm : n + 1 + m = (n + m) + 1 := by omega
    rw [hsm]
    rw [collapseIter, collapseIter]
    cases hf : findComplementary rows with
    | none => rfl
    | some ci =>
      apply ih
      have hspec := findComplementary_spec hf
      have := length_head_mergeColsAt hspec.2.1
      omega

/-- C10: the complementary-merge loop terminates.  Running the loop with fuel
equal to the column count reaches a state with no adjacent complementary pair
left; a merge step happens only when at least two columns remain and then
strictly decreases the column count by one (hence at most `columns - 1`
merges); and adding any extra fuel beyond the column count does not change
the result — the `while` loop's exit value is this fixpoint. -/
theorem c10_collapse_terminates :
    (∀ rows : List (List String),
      findComplementary (collapseIter (rows.headD []).length rows) = none) ∧
    (∀ (rows : List (List String)) (ci : Nat), findComplementary rows = some ci →
      2 ≤ (rows.headD []).length ∧
      ((mergeColsAt rows ci).headD []).length + 1 = (rows.headD []).length) ∧
    (∀ (rows : List (List String)) (m : Nat),
      collapseIter ((rows.headD []).length + m) rows =
        collapseIter ((rows.headD []).length) rows) := by
  refine ⟨fun rows => collapseIter_fixpoint _ rows (le_refl _), ?_, ?_⟩
  · intro rows ci hf
    have hs := findComplementary_spec hf
    exact ⟨hs.1, length_head_mergeColsAt hs.2.1⟩
  · intro rows m
    exact collapseIter_stable _ m rows (le_refl _)

/-- Concrete instance discharging C10's hypothesis: on the grid
`[[a, ""], ["", b]]` the scan finds the complementary pair at column 0, the
grid has two columns, and the merge leaves one. -/
theorem c10_witness :
    findComplementary [["a", ""], ["", "b"]] = some 0 ∧
    2 ≤ (([["a", ""], ["", "b"]] : List (List String)).headD []).length ∧
    ((mergeColsAt [["a", ""], ["", "b"]] 0).headD []).length + 1 =
      (([["a", ""], ["", "b"]] : List (List String)).headD []).length := by
  exact ⟨by decide, c10_collapse_terminates.2.1 [["a", ""], ["", "b"]] 0 (by decide)⟩

/-- C4: column collapsing first drops all-blank columns and then merges
adjacent complementary pairs.  On the 2x4 grid whose columns 2 and 4 are
entirely empty and whose columns 1 and 3 are complementary the result is a
2x1 grid; when columns 1 and 3 are both non-empty in some row the result is
2x2.  The kept columns are exactly those with a non-blank cell, a pair of
adjacent columns overlaps exactly when some row has both cells non-blank, and
the scan returns the FIRST complementary pair. -/
theorem c4_column_collapse :
    collapseEmptyColumns [["a", "", "", ""], ["", "", "x", ""]] = [["a"], ["x"]] ∧
    collapseEmptyColumns [["a", "", "x", ""], ["b", "", "y", ""]] =
      [["a", "x"], ["b", "y"]] ∧
    (∀ (rows : List (List String)) (i : Nat),
      i ∈ (List.range (natListMax (rows.map (fun r => r.length)))).filter
        (fun i => rows.any (fun r => i < r.length ∧ pyStrip (r.getD i "") ≠ "")) ↔
        i < natListMax (rows.map (fun r => r.length)) ∧
          ∃ r ∈ rows, i < r.length ∧ pyStrip (r.getD i "") ≠ "") ∧
    (∀ (rows : List (List String)) (ci : Nat),
      colsOverlap rows ci = true ↔
        ∃ r ∈ rows, cellAt r ci ≠ "" ∧ cellAt r (ci + 1) ≠ "") ∧
    (∀ (rows : List (List String)) (ci : Nat), findComplementary rows = some ci →
      colsOverlap rows ci = false ∧ ∀ j < ci, colsOverlap rows j = true) := by
  refine ⟨by decide, by decide, ?_, ?_, ?_⟩
  · intro rows i
    rw [List.mem_filter, List.mem_range]
    constructor
    · rintro ⟨h1, h2⟩
      refine ⟨h1, ?_⟩
      simpa using h2
    · rintro ⟨h1, h2⟩
      refine ⟨h1, ?_⟩
      simpa using h2
  · intro rows ci
    simp only [colsOverlap, List.any_eq_true, decide_eq_true_eq]
  · intro rows ci hf
    have := findComplementary_spec hf
    exact ⟨this.2.2.1, this.2.2.2⟩

/-- Concrete instance discharging C4's hypothesis clause: on the grid
`[[a, ""], ["", b]]` the first complementary pair is at column 0 and does not
overlap. -/
theorem c4_witness :
    colsOverlap [["a", ""], ["", "b"]] 0 = false :=
  (c4_column_collapse.2.2.2.2 [["a", ""], ["", "b"]] 0 (by decide)).1

/-! ## C2: the paragraph merge heuristic -/

theorem isListStart_of_bullet {t : String} {c : Char} {cs : List Char}
    (hl : lstripL t.data = c :: cs) (hc : c ∈ bulletChars) :
    isListStart t = true := by
  unfold isListStart
  rw [hl]
  simp [hc]

/-- C2: a new span joins the running group exactly when it is not a list-item
start, its font/size/bold/italic equal the previous (last) span's, the
vertical gap is strictly below `1.5 x size`, and the previous line's width
reaches 60% of the estimated content width
`max(page_width - 144, 0.6 x page_width)`; in particular a span whose
stripped text starts with a bullet character is never merged.  (The
hypotheses are the data-model invariants `x0 <= x1` and a positive size.) -/
theorem c2_merge_characterization (prev curr : Block) (bodySize pageWidth : ℚ)
    (hx : prev.x0 ≤ prev.x1) (hs : curr.size ≠ 0) :
    (shouldMerge prev curr bodySize pageWidth = true ↔
      (isListStart curr.text = false ∧ prev.font = curr.font ∧ prev.size = curr.size ∧
       prev.bold = curr.bold ∧ prev.italic = curr.italic ∧
       curr.y0 - prev.y1 < 1.5 * curr.size ∧
       prev.x1 - prev.x0 ≥ 0.6 * max (pageWidth - 144) (0.6 * pageWidth))) ∧
    (∀ c cs, lstripL curr.text.data = c :: cs → c ∈ bulletChars →
      shouldMerge prev curr bodySize pageWidth = false) := by
  constructor
  · simp only [shouldMerge]
    rw [if_neg hs]
    rw [show pageWidth * (0.6 : ℚ) = 0.6 * pageWidth from mul_comm _ _]
    set cw := max (pageWidth - 144) (0.6 * pageWidth) with hcw
    split_ifs with h1 h2 h3 h4 h5 h6 h7
    · simp [h1]
    · simp only [Bool.false_eq_true, false_iff]
      rintro ⟨-, hf, -⟩
      exact h2 hf
    · simp only [Bool.false_eq_true, false_iff]
      rintro ⟨-, -, hf, -⟩
      exact h3 hf
    · simp only [Bool.false_eq_true, false_iff]
      rintro ⟨-, -, -, hf, -⟩
      exact h4 hf
    · simp only [Bool.false_eq_true, false_iff]
      rintro ⟨-, -, -, -, hf, -⟩
      exact h5 hf
    · simp only [Bool.false_eq_true, false_iff]
      rintro ⟨-, -, -, -, -, hf, -⟩
      linarith
    · simp only [Bool.false_eq_true, false_iff]
      rintro ⟨-, -, -, -, -, -, hf⟩
      rcases h7 with ⟨-, hlt⟩
      linarith
    · simp only [true_iff]
      refine ⟨by simpa using h1, not_not.mp h2, not_not.mp h3, not_not.mp h4,
        not_not.mp h5, by linarith, ?_⟩
      rcases not_and_or.mp h7 with hcw0 | hlw
      · have hcw0' : cw ≤ 0 := le_of_not_lt hcw0
        nlinarith
      · linarith [le_of_not_lt hlw]
  · intro c cs hl hc
    have h1 := isListStart_of_bullet hl hc
    unfold shouldMerge
    rw [if_pos h1]

/-- Concrete instance discharging C2's hypotheses: two same-styled wrapped
lines on a US-Letter page merge, witnessed through the characterization. -/
theorem c2_witness :
    shouldMerge
      { text := "first line of a wrapped paragraph", x0 := 72, y0 := 100, x1 := 530,
        y1 := 112, font := "F", size := 12 }
      { text := "second line", x0 := 72, y0 := 114, x1 := 300, y1 := 126,
        font := "F", size := 12 }
      12 612 = true := by
  apply (c2_merge_characterization _ _ 12 612 (by norm_num) (by norm_num)).1.mpr
  refine ⟨by with_unfolding_all decide, rfl, rfl, rfl, rfl, by norm_num, by
    rw [show max ((612 : ℚ) - 144) (0.6 * 612) = 468 by norm_num]
    norm_num⟩

/-! ## C3: header/footer detection thresholds -/

/-- The rational threshold `count >= max(page_count * 0.50, 3)` of the source
is the claim's "at least both 50% of the page count and 3". -/
theorem isHeaderText_iff (blocks : List Block) (metas : List PageMeta) (n : Nat)
    (t : String) :
    isHeaderText blocks metas n t = true ↔
      t ≠ "" ∧ 3 ≤ (topPages blocks metas t).length ∧
        n ≤ 2 * (topPages blocks metas t).length := by
  unfold isHeaderText
  rw [Bool.and_eq_true]
  simp only [decide_eq_true_eq, ge_iff_le, max_le_iff]
  constructor
  · rintro ⟨h1, h2, h3⟩
    refine ⟨h1, by exact_mod_cast h3, ?_⟩
    have : (n : ℚ) ≤ 2 * ((topPages blocks metas t).length : ℚ) := by linarith
    exact_mod_cast this
  · rintro ⟨h1, h2, h3⟩
    have h2' : (3 : ℚ) ≤ ((topPages blocks metas t).length : ℚ) := by exact_mod_cast h2
    have h3' : (n : ℚ) ≤ 2 * ((topPages blocks metas t).length : ℚ) := by exact_mod_cast h3
    exact ⟨h1, by linarith, h2'⟩

/-- C3: header/footer detection runs only for documents with at least three
pages (below that the input is returned untouched); a string is emitted as a
header exactly when it is non-empty, occurs (stripped) among the spans, and
lies entirely within the top 8% zone on at least `max(50% of pages, 3)` pages
(here stated as the equivalent integer bounds); and the working span set
keeps exactly the spans whose stripped text qualifies as neither header nor
footer. -/
theorem c3_header_footer (blocks : List Block) (metas : List PageMeta) (n : Nat) :
    (n < 3 → detectHeadersFooters blocks metas n = ([], [], blocks)) ∧
    (3 ≤ n → blocks ≠ [] → ∀ t : String,
      (t ∈ (detectHeadersFooters blocks metas n).1 ↔
        t ≠ "" ∧ 3 ≤ (topPages blocks metas t).length ∧
          n ≤ 2 * (topPages blocks metas t).length ∧
          ∃ b ∈ blocks, pyStrip b.text = t)) ∧
    (3 ≤ n → blocks ≠ [] →
      (detectHeadersFooters blocks metas n).2.2 = blocks.filter
        (fun b => ¬ isHeaderText blocks metas n (pyStrip b.text) ∧
          ¬ isFooterText blocks metas n (pyStrip b.text))) := by
  refine ⟨?_, ?_, ?_⟩
  · intro hlt
    unfold detectHeadersFooters
    rw [if_pos (Or.inl hlt)]
  · intro h3 hne t
    unfold detectHeadersFooters
    rw [if_neg (by push_neg; exact ⟨by omega, hne⟩)]
    dsimp only
    rw [mem_dedupFirst, List.mem_filter]
    constructor
    · rintro ⟨hmem, hh⟩
      rcases List.mem_map.mp hmem with ⟨b, hb, rfl⟩
      have hch := (isHeaderText_iff blocks metas n (pyStrip b.text)).mp hh
      exact ⟨hch.1, hch.2.1, hch.2.2, b, hb, rfl⟩
    · rintro ⟨h1, h2, hcount, b, hb, hbt⟩
      exact ⟨List.mem_map.mpr ⟨b, hb, hbt⟩,
        (isHeaderText_iff blocks metas n t).mpr ⟨h1, h2, hcount⟩⟩
  · intro h3 hne
    unfold detectHeadersFooters
    rw [if_neg (by push_neg; exact ⟨by omega, hne⟩)]

/-- Ten-page instance: `HDR` sits in the top 8% zone of pages 0..4, `NOT` only
on pages 0..3, plus one body span. -/
def c3Blocks : List Block :=
  (List.range 5).map (fun p =>
    { text := "HDR", x0 := 50, y0 := 10, x1 := 200, y1 := 20, page_num := p }) ++
  (List.range 4).map (fun p =>
    { text := "NOT", x0 := 50, y0 := 30, x1 := 200, y1 := 40, page_num := p }) ++
  [{ text := "body text", x0 := 50, y0 := 400, x1 := 200, y1 := 410, page_num := 0 }]

def c3Metas : List PageMeta := (List.range 10).map (fun _ => {})

/-- Concrete instance discharging C3's hypotheses: in the 10-page document a
string in the top zone of exactly 5 pages IS a header and one on exactly 4
pages is NOT. -/
theorem c3_witness :
    "HDR" ∈ (detectHeadersFooters c3Blocks c3Metas 10).1 ∧
    "NOT" ∉ (detectHeadersFooters c3Blocks c3Metas 10).1 := by
  constructor
  · exact ((c3_header_footer c3Blocks c3Metas 10).2.1 (by norm_num)
      (by with_unfolding_all decide) "HDR").mpr (by with_unfolding_all decide)
  · intro hmem
    have hch := ((c3_header_footer c3Blocks c3Metas 10).2.1 (by norm_num)
      (by with_unfolding_all decide) "NOT").mp hmem
    rcases hch with ⟨-, -, hcount, -⟩
    revert hcount
    with_unfolding_all decide

/-! ## C9: hyperlink attachment -/

theorem strFindAux_spec (needle : List Char) :
    ∀ (hay : List Char) (i j : Nat), strFindAux needle hay i = some j →
      ∃ k, j = i + k ∧ needle <+: hay.drop k ∧ ∀ m < k, ¬ needle <+: hay.drop m := by
  intro hay
  induction hay with
  | nil =>
    intro i j h
    rw [strFindAux] at h
    split at h
    · next hp =>
      cases h
      exact ⟨0, by omega, by simpa using List.isPrefixOf_iff_prefix.mp hp, by omega⟩
    · simp at h
  | cons c t ih =>
    intro i j h
    rw [strFindAux] at h
    split at h
    · next hp =>
      cases h
      exact ⟨0, by omega, by simpa using List.isPrefixOf_iff_prefix.mp hp, by omega⟩
    · next hp =>
      rcases ih (i + 1) j h with ⟨k, hk1, hk2, hk3⟩
      refine ⟨k + 1, by omega, by simpa using hk2, ?_⟩
      intro m hm
      cases m with
      | zero =>
        intro hpre
        exact hp (List.isPrefixOf_iff_prefix.mpr (by simpa using hpre))
      | succ m' =>
        have := hk3 m' (by omega)
        simpa using this

theorem strFind_first {hay needle : List Char} {j : Nat}
    (h : strFind hay needle = some j) :
    occursAt hay needle j ∧ ∀ m < j, ¬ occursAt hay needle m := by
  unfold strFind at h
  rcases strFindAux_spec needle hay 0 j h with ⟨k, hk1, hk2, hk3⟩
  have hjk : j = k := by omega
  subst hjk
  exact ⟨hk2, hk3⟩

theorem attachElem_eq_or (links : List Link) (e : Element) :
    attachElem links e = e ∨
    attachElem links e = { e with links :=
      (links.filter (fun l => l.page_num = e.page_num)).filterMap (matchLink e) } := by
  unfold attachElem
  dsimp only
  split_ifs <;> first | exact Or.inl rfl | exact Or.inr rfl

/-- C9: when a link matches an element, the recorded range carries the
link's URI, its text is the (space-joined, stripped) concatenation of the
texts of the runs whose boxes overlap the link rectangle (a non-empty set),
its end is its start plus the length of that text, and the start is the FIRST
index at which that text occurs as a substring of the element's full text.
The attachment pass leaves an element unchanged or sets its `links` to the
matches of the links on the element's own page. -/
theorem c9_link_attachment :
    (∀ (e : Element) (l : Link) (r : LinkRange), matchLink e l = some r →
      r.uri = l.uri ∧
      r.text = pyStrip (String.intercalate " "
        ((e.runs.filter (runOverlaps l)).map (fun x => x.text))) ∧
      (e.runs.filter (runOverlaps l)).map (fun x => x.text) ≠ [] ∧
      r.stop = r.start + r.text.length ∧
      occursAt e.text.data r.text.data r.start ∧
      (∀ m < r.start, ¬ occursAt e.text.data r.text.data m)) ∧
    (∀ (links : List Link) (e : Element),
      attachElem links e = e ∨
      attachElem links e = { e with links :=
        (links.filter (fun l => l.page_num = e.page_num)).filterMap (matchLink e) }) := by
  constructor
  · intro e l r hm
    unfold matchLink at hm
    dsimp only at hm
    split at hm
    · exact absurd hm (by simp)
    · next hparts =>
      set lt := pyStrip (String.intercalate " "
        ((e.runs.filter (runOverlaps l)).map (fun x => x.text))) with hlt
      cases hfind : strFind e.text.data lt.data with
      | none => rw [hfind] at hm; exact absurd hm (by simp)
      | some i =>
        rw [hfind] at hm
        cases hm
        have hocc := strFind_first hfind
        exact ⟨rfl, rfl, hparts, rfl, hocc.1, hocc.2⟩
  · exact attachElem_eq_or

/-- The exemplar paragraph: text `Visit our website today` with three runs, of
which only the middle one overlaps the link rectangle. -/
def c9Para : Element :=
  { kind := "paragraph", text := "Visit our website today", page_num := 0,
    runs := [{ text := "Visit our ", x0 := 0, y0 := 0, x1 := 50, y1 := 10 },
             { text := "website", x0 := 50, y0 := 0, x1 := 90, y1 := 10 },
             { text := " today", x0 := 90, y0 := 0, x1 := 120, y1 := 10 }] }

def c9Link : Link := { uri := "http://example.com", bbox := (50, 0, 90, 10), page_num := 0 }

/-- Concrete instance discharging C9's hypothesis: the `website` link yields
`start = 10`, `end = 17`, and the occurrence fact follows from the theorem. -/
theorem c9_witness :
    matchLink c9Para c9Link =
      some { text := "website", uri := "http://example.com", start := 10, stop := 17 } ∧
    occursAt c9Para.text.data ("website" : String).data 10 := by
  have hm : matchLink c9Para c9Link =
      some { text := "website", uri := "http://example.com", start := 10, stop := 17 } := by
    with_unfolding_all decide
  refine ⟨hm, ?_⟩
  have h := (c9_link_attachment.1 c9Para c9Link _ hm).2.2.2.2.1
  simpa using h

/-! ## C1: ordering of the final element list -/

/-- One page's elements after the link-attachment pass, with the arguments
`analyzeModel` feeds the page loop. -/
def pageSegment (d : Extracted) (p : Nat) : List Element :=
  (pageElements "Arial" (fontAnalyze d.text_blocks).bodySize
    (fontAnalyze d.text_blocks).headingFonts (fontAnalyze d.text_blocks).fontMap
    d (workingBlocks d) p).map (attachElem d.links)

/-- The body of the output: the first page's segment, then for every later
page a page break followed by that page's segment. -/
def joinPages (d : Extracted) : List Nat → List Element
  | [] => []
  | p :: rest => pageSegment d p ++
      rest.flatMap (fun q => pageBreakElement d.pages q :: pageSegment d q)

theorem attachElem_page_num (links : List Link) (e : Element) :
    (attachElem links e).page_num = e.page_num := by
  rcases attachElem_eq_or links e with h | h <;> rw [h]

theorem attachElem_y0 (links : List Link) (e : Element) :
    (attachElem links e).y0 = e.y0 := by
  rcases attachElem_eq_or links e with h | h <;> rw [h]

theorem attachElem_x0 (links : List Link) (e : Element) :
    (attachElem links e).x0 = e.x0 := by
  rcases attachElem_eq_or links e with h | h <;> rw [h]

theorem elemLE_attach {links : List Link} {a b : Element} (h : elemLE a b) :
    elemLE (attachElem links a) (attachElem links b) := by
  unfold elemLE qpairLE at h ⊢
  rw [attachElem_y0, attachElem_y0, attachElem_x0, attachElem_x0]
  exact h

theorem attachElem_pageBreak (links : List Link) (ms : List PageMeta) (p : Nat) :
    attachElem links (pageBreakElement ms p) = pageBreakElement ms p := by
  by_cases h : links = []
  · unfold attachElem; rw [if_pos h]
  · unfold attachElem
    rw [if_neg h, if_pos]
    constructor <;> intro hk <;> exact absurd hk (by simp [pageBreakElement])

theorem finalizeGroup_page_num (cfgFb : String) (group : List Block) (pageNum : Nat)
    (bodyX0 : ℚ) (hf : List HeadingFont) (fontMap : List (String × String))
    (pageWidth prevY1 : ℚ) :
    (finalizeGroup cfgFb group pageNum bodyX0 hf fontMap pageWidth prevY1).page_num =
      pageNum := by
  unfold finalizeGroup
  dsimp only
  split
  · rfl
  · split
    · rfl
    · rfl

theorem groupLoop_page_num (cfgFb : String) (pageNum : Nat) (bodySize bodyX0 : ℚ)
    (hf : List HeadingFont) (fontMap : List (String × String)) (pageWidth : ℚ) :
    ∀ (rest group : List Block) (prevY1 : ℚ),
      ∀ e ∈ groupLoop cfgFb pageNum bodySize bodyX0 hf fontMap pageWidth group prevY1 rest,
        e.page_num = pageNum := by
  intro rest
  induction rest with
  | nil =>
    intro group prevY1 e he
    simp only [groupLoop, List.mem_singleton] at he
    rw [he]
    exact finalizeGroup_page_num _ _ _ _ _ _ _ _
  | cons b rest ih =>
    intro group prevY1 e he
    rw [groupLoop] at he
    split at he
    · exact ih _ _ e he
    · rcases List.mem_cons.mp he with heq | he'
      · rw [heq]
        exact finalizeGroup_page_num _ _ _ _ _ _ _ _
      · exact ih _ _ e he'

theorem processTextBlocks_page_num (cfgFb : String) (blocks : List Block)
    (pageNum : Nat) (bodySize bodyX0 : ℚ) (hf : List HeadingFont)
    (fontMap : List (String × String)) (pageWidth : ℚ) :
    ∀ e ∈ processTextBlocks cfgFb blocks pageNum bodySize bodyX0 hf fontMap pageWidth,
      e.page_num = pageNum := by
  intro e he
  unfold processTextBlocks at he
  cases hs : blocks.insertionSort blockLE with
  | nil => rw [hs] at he; simp at he
  | cons b rest =>
    rw [hs] at he
    exact groupLoop_page_num _ _ _ _ _ _ _ rest [b] 0 e he

theorem pageTextElements_page_num (cfgFb : String) (bodySize : ℚ)
    (hf : List HeadingFont) (fontMap : List (String × String))
    (pageBlocks : List Block) (pw ph : ℚ) (p : Nat) :
    ∀ e ∈ pageTextElements cfgFb bodySize hf fontMap pageBlocks pw ph p,
      e.page_num = p := by
  intro e he
  unfold pageTextElements at he
  dsimp only at he
  split at he
  · rw [if_neg (by norm_num)] at he
    exact processTextBlocks_page_num _ _ _ _ _ _ _ _ e he
  · split at he
    · rcases List.mem_flatMap.mp he with ⟨col, _, hecol⟩
      exact processTextBlocks_page_num _ _ _ _ _ _ _ _ e hecol
    · exact processTextBlocks_page_num _ _ _ _ _ _ _ _ e he

theorem pageElements_page_num (cfgFb : String) (bodySize : ℚ)
    (hf : List HeadingFont) (fontMap : List (String × String)) (d : Extracted)
    (blocks : List Block) (p : Nat) :
    ∀ e ∈ pageElements cfgFb bodySize hf fontMap d blocks p, e.page_num = p := by
  intro e he
  unfold pageElements at he
  dsimp only at he
  rw [(List.perm_insertionSort elemLE _).mem_iff] at he
  rcases List.mem_append.mp he with he | he
  · rcases List.mem_append.mp he with he | he
    · exact pageTextElements_page_num _ _ _ _ _ _ _ _ e he
    · rcases List.mem_map.mp he with ⟨img, himg, heq⟩
      rcases List.mem_filter.mp himg with ⟨-, hpg⟩
      rw [← heq]
      simpa [makeImageElement] using of_decide_eq_true hpg
  · rcases List.mem_map.mp he with ⟨tbl, htbl, heq⟩
    rcases List.mem_filter.mp htbl with ⟨-, hpg⟩
    rw [← heq]
    simpa [makeTableElement] using of_decide_eq_true hpg

theorem pageElements_sorted (cfgFb : String) (bodySize : ℚ)
    (hf : List HeadingFont) (fontMap : List (String × String)) (d : Extracted)
    (blocks : List Block) (p : Nat) :
    List.Pairwise elemLE (pageElements cfgFb bodySize hf fontMap d blocks p) := by
  unfold pageElements
  dsimp only
  exact List.sorted_insertionSort elemLE _

theorem pageSegment_sorted (d : Extracted) (p : Nat) :
    List.Pairwise elemLE (pageSegment d p) := by
  unfold pageSegment
  exact List.Pairwise.map _ (fun a b hab => elemLE_attach hab)
    (pageElements_sorted _ _ _ _ _ _ _)

theorem pageSegment_page_num (d : Extracted) (p : Nat) :
    ∀ e ∈ pageSegment d p, e.page_num = p := by
  intro e he
  unfold pageSegment at he
  rcases List.mem_map.mp he with ⟨e0, he0, heq⟩
  rw [← heq, attachElem_page_num]
  exact pageElements_page_num _ _ _ _ _ _ _ e0 he0

theorem sortedPageNums_strict (d : Extracted) :
    List.Pairwise (· < ·) (sortedPageNums d) := by
  unfold sortedPageNums
  have hp : List.Pairwise (· ≤ ·) (((dedupFirst ((workingBlocks d).map (fun b => b.page_num) ++
      d.images.map (fun i => i.page_num) ++
      d.tables.map (fun t => t.page_num)))).insertionSort (· ≤ ·)) :=
    List.sorted_insertionSort _ _
  have hn : (((dedupFirst ((workingBlocks d).map (fun b => b.page_num) ++
      d.images.map (fun i => i.page_num) ++
      d.tables.map (fun t => t.page_num)))).insertionSort (· ≤ ·)).Nodup :=
    (List.perm_insertionSort _ _).nodup_iff.mpr (nodup_dedupFirst _)
  exact (hp.and hn).imp (fun h => lt_of_le_of_ne h.1 h.2)

theorem pagesLoop_some_eq (cfgFb : String) (bodySize : ℚ) (hf : List HeadingFont)
    (fontMap : List (String × String)) (d : Extracted) (blocks : List Block) :
    ∀ (ps : List Nat) (q : Nat), (∀ p ∈ ps, q < p) → List.Pairwise (· < ·) ps →
      pagesLoop cfgFb bodySize hf fontMap d blocks ps (some q) =
        ps.flatMap (fun r => pageBreakElement d.pages r ::
          pageElements cfgFb bodySize hf fontMap d blocks r) := by
  intro ps
  induction ps with
  | nil => intro q _ _; rfl
  | cons p rest ih =>
    intro q hq hpw
    rw [pagesLoop]
    have hqp : q ≠ p := Nat.ne_of_lt (hq p (List.mem_cons_self _ _))
    rw [if_pos ⟨by simp, by simpa using hqp⟩]
    rw [ih p (fun r hr => (List.pairwise_cons.mp hpw).1 r hr)
      (List.pairwise_cons.mp hpw).2]
    simp [List.flatMap_cons]

/-- C1 counterexample: one portrait US-Letter page whose six spans form two
validated columns (three spans each at `x0 = 50` and `x0 = 400`).  The final
element list interleaves the columns in `(y0, x0)` order — the right-column
element `R1` (with `x0 = 400`) precedes the left-column elements `L2` and
`L3` — refuting the claim that all elements of the left column precede all
elements of the right column. -/
def c1Blocks : List Block :=
  [{ text := "L1", x0 := 50, y0 := 100, x1 := 200, y1 := 110, font := "F", size := 12 },
   { text := "L2", x0 := 50, y0 := 300, x1 := 200, y1 := 310, font := "F", size := 12 },
   { text := "L3", x0 := 50, y0 := 500, x1 := 200, y1 := 510, font := "F", size := 12 },
   { text := "R1", x0 := 400, y0 := 100, x1 := 550, y1 := 110, font := "F", size := 12 },
   { text := "R2", x0 := 400, y0 := 300, x1 := 550, y1 := 310, font := "F", size := 12 },
   { text := "R3", x0 := 400, y0 := 500, x1 := 550, y1 := 510, font := "F", size := 12 }]

def c1Input : Extracted := { text_blocks := c1Blocks, pages := [{}] }

/-- C1 counterexample: the page is accepted as a two-column layout (both
columns hold three spans), yet the output order is `L1, R1, L2, R2, L3, R3` —
element index 1 comes from the right column (`x0 = 400`) and precedes the
left-column elements at indices 2 and 4, so the within-column-then-column
ordering stated by the claim does not hold. -/
theorem c1_counterexample :
    (layoutAnalyze c1Blocks 612 792).numColumns = 2 ∧
    ((layoutAnalyze c1Blocks 612 792).blocksByColumn.map (fun c => c.length)) = [3, 3] ∧
    (analyzeModel c1Input).map (fun e => (e.text, e.x0)) =
      [("L1", 50), ("R1", 400), ("L2", 50), ("R2", 400), ("L3", 50), ("R3", 400)] := by
  refine ⟨?_, ?_, ?_⟩
  · with_unfolding_all decide
  · with_unfolding_all decide
  · with_unfolding_all decide

/-- C1 amended: the output of `analyze` is the header/footer prefix followed
by the pages in strictly increasing `page_num` order, a `page_break` element
separating consecutive pages; within each page the elements are sorted by
`(y0, x0)` — including on validated multi-column pages, where the final
per-page sort interleaves the columns by vertical position instead of keeping
earlier columns' elements before later ones — and every element of a page's
segment carries that page's number. -/
theorem c1_amended_ordering (d : Extracted) :
    analyzeModel d = hfPrefixElems d ++ joinPages d (sortedPageNums d) ∧
    List.Pairwise (· < ·) (sortedPageNums d) ∧
    (∀ p ∈ sortedPageNums d, List.Pairwise elemLE (pageSegment d p) ∧
      ∀ e ∈ pageSegment d p, e.page_num = p) := by
  refine ⟨?_, sortedPageNums_strict d,
    fun p _ => ⟨pageSegment_sorted d p, pageSegment_page_num d p⟩⟩
  unfold analyzeModel
  dsimp only
  congr 1
  cases hps : sortedPageNums d with
  | nil => rfl
  | cons p rest =>
    have hpw := sortedPageNums_strict d
    rw [hps] at hpw
    unfold attachLinksAll
    rw [pagesLoop]
    rw [if_neg (by simp)]
    rw [pagesLoop_some_eq "Arial" (fontAnalyze d.text_blocks).bodySize
      (fontAnalyze d.text_blocks).headingFonts (fontAnalyze d.text_blocks).fontMap
      d (workingBlocks d) rest p
      (fun r hr => (List.pairwise_cons.mp hpw).1 r hr)
      (List.pairwise_cons.mp hpw).2]
    unfold joinPages pageSegment
    rw [List.nil_append, List.map_append, List.map_flatMap]
    simp only [List.map_cons, attachElem_pageBreak]

/-- Concrete instance discharging the amended C1's hypotheses: the two-column
input decomposes into the page-break structure and page 0's segment is sorted
by `(y0, x0)`. -/
theorem c1_witness :
    analyzeModel c1Input =
      hfPrefixElems c1Input ++ joinPages c1Input (sortedPageNums c1Input) ∧
    List.Pairwise elemLE (pageSegment c1Input 0) ∧
    (∀ e ∈ pageSegment c1Input 0, e.page_num = 0) := by
  refine ⟨(c1_amended_ordering c1Input).1, ?_, ?_⟩
  · exact ((c1_amended_ordering c1Input).2.2 0 (by with_unfolding_all decide)).1
  · exact ((c1_amended_ordering c1Input).2.2 0 (by with_unfolding_all decide)).2

end PDFtoWord
